import Mathlib

/-!
Verification development for a mini-redis style server (RESP frame codec,
key/value database with TTL expiration, pub/sub, connection handler).

Byte strings (`Bytes`, Rust `String`) are modelled as `List Nat` of byte
values; monotonic instants (`Instant`) and durations are `Nat` (milliseconds).
Fallible code returns `Except`/`Option`.  Recursive byte-level parsers are
written with a structural fuel parameter so that every definition is
executable and kernel-reducible.
-/

namespace MiniRedis

/-! ## ASCII and decimal helpers -/

/-- ASCII lower-casing of one byte (the case mapping used for command-name
comparison; on the ASCII command names involved it agrees with the Unicode
mapping performed by the source). -/
def asciiLowerByte (b : Nat) : Nat := if 65 ≤ b ∧ b ≤ 90 then b + 32 else b

/-- Byte-wise ASCII lower-casing of a byte string. -/
def asciiLower (s : List Nat) : List Nat := s.map asciiLowerByte

/-- ASCII upper-casing of one byte. -/
def asciiUpperByte (b : Nat) : Nat := if 97 ≤ b ∧ b ≤ 122 then b - 32 else b

/-- Byte-wise ASCII upper-casing of a byte string (used for the `EX`/`PX`
option comparison in `Set::parse_frames`). -/
def asciiUpper (s : List Nat) : List Nat := s.map asciiUpperByte

/-- Whether a byte string contains the two-byte subsequence CR LF. -/
def hasCrlf : List Nat → Bool
  | [] => false
  | b :: rest => (decide (b = 13) && decide (rest.head? = some 10)) || hasCrlf rest

/-- Whether a byte is a UTF-8 continuation byte (`0x80`–`0xBF`). -/
def isCont (b : Nat) : Bool := 128 ≤ b && b ≤ 191

/-- Standard UTF-8 validity check on a byte string; models the validation
performed by Rust `String::from_utf8` / `str::from_utf8`. -/
def validUtf8 : List Nat → Bool
  | [] => true
  | b :: rest =>
    if b ≤ 127 then validUtf8 rest
    else
      match rest with
      | [] => false
      | c :: rest2 =>
        if 194 ≤ b && b ≤ 223 then isCont c && validUtf8 rest2
        else
          match rest2 with
          | [] => false
          | d :: rest3 =>
            if b = 224 then (160 ≤ c && c ≤ 191) && isCont d && validUtf8 rest3
            else if (225 ≤ b && b ≤ 236) || (238 ≤ b && b ≤ 239) then
              isCont c && isCont d && validUtf8 rest3
            else if b = 237 then (128 ≤ c && c ≤ 159) && isCont d && validUtf8 rest3
            else
              match rest3 with
              | [] => false
              | e :: rest4 =>
                if b = 240 then
                  (144 ≤ c && c ≤ 191) && isCont d && isCont e && validUtf8 rest4
                else if 241 ≤ b && b ≤ 243 then
                  isCont c && isCont d && isCont e && validUtf8 rest4
                else if b = 244 then
                  (128 ≤ c && c ≤ 143) && isCont d && isCont e && validUtf8 rest4
                else false

/-- Decimal digits (most significant first) of `n`, as ASCII bytes; the fuel
argument makes the recursion structural (`natDecimal` supplies enough). -/
def natDecimalAux : Nat → Nat → List Nat → List Nat
  | 0, _, acc => acc
  | fuel + 1, n, acc =>
    if n < 10 then (48 + n) :: acc
    else natDecimalAux fuel (n / 10) ((48 + n % 10) :: acc)

/-- ASCII decimal representation of `n`, as produced by formatting a `u64`
with `write!` in `Connection::write_decimal`. -/
def natDecimal (n : Nat) : List Nat := natDecimalAux (n + 1) n []

/-- Value of an ASCII digit byte, or `none`. -/
def digitVal? (b : Nat) : Option Nat := if 48 ≤ b ∧ b ≤ 57 then some (b - 48) else none

/-- Accumulate leading decimal digits, stopping at the first non-digit
(the behaviour of the `atoi` crate used by the source). -/
def atoiDigits : List Nat → Nat → Nat
  | b :: rest, acc =>
    match digitVal? b with
    | some d => atoiDigits rest (10 * acc + d)
    | none => acc
  | [], acc => acc

/-- `atoi::atoi::<u64>`: parse the leading run of decimal digits; `none` when
the input does not start with a digit. -/
def atoi (l : List Nat) : Option Nat :=
  match l with
  | b :: rest =>
    match digitVal? b with
    | some d => some (atoiDigits rest d)
    | none => none
  | [] => none

/-- Whether every byte is an ASCII digit. -/
def allDigits : List Nat → Bool
  | [] => true
  | b :: rest => (decide (48 ≤ b ∧ b ≤ 57)) && allDigits rest

/-! ## RESP frames (`src/frame.rs`) -/

/-- A frame of the Redis protocol (`Frame` in `src/frame.rs`).  Text payloads
(`String` in the source) and binary payloads (`Bytes`) are byte lists; the
`u64` of `Integer` is a `Nat` (well-formed frames keep it below `2 ^ 64`). -/
inductive Frame where
  | simple (s : List Nat)
  | error (s : List Nat)
  | integer (n : Nat)
  | bulk (b : List Nat)
  | null
  | array (items : List Frame)

/-- Errors of the frame parser (`frame::Error`); `unimpl` marks the
`unimplemented!()` panic branch of `Frame::parse`, which is not a returned
error in the source but a crash. -/
inductive PErr where
  | incomplete
  | other (msg : String)
  | unimpl
deriving Repr, DecidableEq

/-- `get_u8`: consume one byte at the cursor, or `Incomplete`. -/
def getU8 (buf : List Nat) (pos : Nat) : Except PErr (Nat × Nat) :=
  match (buf.drop pos).head? with
  | some b => .ok (b, pos + 1)
  | none => .error .incomplete

/-- `peek_u8`: read one byte at the cursor without consuming it. -/
def peekU8 (buf : List Nat) (pos : Nat) : Except PErr Nat :=
  match (buf.drop pos).head? with
  | some b => .ok b
  | none => .error .incomplete

/-- `skip n`: advance the cursor by `n`, or `Incomplete` when fewer than `n`
bytes remain. -/
def skip (buf : List Nat) (pos n : Nat) : Except PErr Nat :=
  if n ≤ (buf.drop pos).length then .ok (pos + n) else .error .incomplete

/-- Split a byte string at the first CR LF pair: the line before it and the
remainder after it.  This is the search that `get_line` performs with an index
scan bounded by `len - 1` (a CR LF pair always lies wholly inside the
buffer). -/
def splitLine : List Nat → Option (List Nat × List Nat)
  | [] => none
  | b :: rest =>
    if b = 13 ∧ rest.head? = some 10 then some ([], rest.tail)
    else (splitLine rest).map (fun p => (b :: p.1, p.2))

/-- `get_line`: the bytes up to the next CR LF; the cursor moves past the
LF.  `Incomplete` when no full CR LF pair is in the buffer. -/
def getLine (buf : List Nat) (pos : Nat) : Except PErr (List Nat × Nat) :=
  match splitLine (buf.drop pos) with
  | some (line, _) => .ok (line, pos + line.length + 2)
  | none => .error .incomplete

/-- `get_decimal`: a full line parsed by `atoi`, protocol error when the line
does not start with a digit. -/
def getDecimal (buf : List Nat) (pos : Nat) : Except PErr (Nat × Nat) :=
  match getLine buf pos with
  | .ok (line, pos2) =>
    match atoi line with
    | some n => .ok (n, pos2)
    | none => .error (.other "protocol error; invalid frame format")
  | .error e => .error e

/-- `count` successive runs of `Frame::check` (`src/frame.rs`), threading the
cursor.  The `for` loop of the array branch is the inner recursive call with
the array length as the new count.  `fuel` only makes the recursion
structural; it never runs out on the canonical value used by `Frame.check`
for the buffers considered here. -/
def checkMany : Nat → Nat → List Nat → Nat → Except PErr Nat
  | 0, _, _, _ => .error (.other "recursion limit")
  | _ + 1, 0, _, pos => .ok pos
  | fuel + 1, count + 1, buf, pos =>
    match getU8 buf pos with
    | .error e => .error e
    | .ok (b, pos1) =>
      if b = 43 then
        match getLine buf pos1 with
        | .ok (_, pos2) => checkMany fuel count buf pos2
        | .error e => .error e
      else if b = 45 then
        match getLine buf pos1 with
        | .ok (_, pos2) => checkMany fuel count buf pos2
        | .error e => .error e
      else if b = 58 then
        match getDecimal buf pos1 with
        | .ok (_, pos2) => checkMany fuel count buf pos2
        | .error e => .error e
      else if b = 36 then
        match peekU8 buf pos1 with
        | .error e => .error e
        | .ok p =>
          if p = 45 then
            match skip buf pos1 4 with
            | .ok pos2 => checkMany fuel count buf pos2
            | .error e => .error e
          else
            match getDecimal buf pos1 with
            | .error e => .error e
            | .ok (len, pos2) =>
              match skip buf pos2 (len + 2) with
              | .ok pos3 => checkMany fuel count buf pos3
              | .error e => .error e
      else if b = 42 then
        match getDecimal buf pos1 with
        | .error e => .error e
        | .ok (len, pos2) =>
          match checkMany fuel len buf pos2 with
          | .ok pos3 => checkMany fuel count buf pos3
          | .error e => .error e
      else .error (.other "protocol error; invalid frame type byte")

/-- `count` successive runs of `Frame::parse` (`src/frame.rs`), threading the
cursor and collecting the parsed frames.  Mirrors `checkMany` branch for
branch; the catch-all arm of the source is `unimplemented!()`, modelled as
the distinguished error `PErr.unimpl`. -/
def parseMany : Nat → Nat → List Nat → Nat → Except PErr (List Frame × Nat)
  | 0, _, _, _ => .error (.other "recursion limit")
  | _ + 1, 0, _, pos => .ok ([], pos)
  | fuel + 1, count + 1, buf, pos =>
    match getU8 buf pos with
    | .error e => .error e
    | .ok (b, pos1) =>
      if b = 43 then
        match getLine buf pos1 with
        | .ok (line, pos2) =>
          if validUtf8 line then
            match parseMany fuel count buf pos2 with
            | .ok (rest, posF) => .ok (.simple line :: rest, posF)
            | .error e => .error e
          else .error (.other "protocol error; invalid frame format")
        | .error e => .error e
      else if b = 45 then
        match getLine buf pos1 with
        | .ok (line, pos2) =>
          if validUtf8 line then
            match parseMany fuel count buf pos2 with
            | .ok (rest, posF) => .ok (.error line :: rest, posF)
            | .error e => .error e
          else .error (.other "protocol error; invalid frame format")
        | .error e => .error e
      else if b = 58 then
        match getDecimal buf pos1 with
        | .ok (n, pos2) =>
          match parseMany fuel count buf pos2 with
          | .ok (rest, posF) => .ok (.integer n :: rest, posF)
          | .error e => .error e
        | .error e => .error e
      else if b = 36 then
        match peekU8 buf pos1 with
        | .error e => .error e
        | .ok p =>
          if p = 45 then
            match getLine buf pos1 with
            | .ok (line, pos2) =>
              if line = [45, 49] then
                match parseMany fuel count buf pos2 with
                | .ok (rest, posF) => .ok (.null :: rest, posF)
                | .error e => .error e
              else .error (.other "protocol error; invalid frame format")
            | .error e => .error e
          else
            match getDecimal buf pos1 with
            | .error e => .error e
            | .ok (len, pos2) =>
              if len + 2 ≤ (buf.drop pos2).length then
                match parseMany fuel count buf (pos2 + (len + 2)) with
                | .ok (rest, posF) => .ok (.bulk ((buf.drop pos2).take len) :: rest, posF)
                | .error e => .error e
              else .error .incomplete
      else if b = 42 then
        match getDecimal buf pos1 with
        | .error e => .error e
        | .ok (len, pos2) =>
          match parseMany fuel len buf pos2 with
          | .error e => .error e
          | .ok (items, pos3) =>
            match parseMany fuel count buf pos3 with
            | .ok (rest, posF) => .ok (.array items :: rest, posF)
            | .error e => .error e
      else .error .unimpl

/-- `Frame::check` on a whole buffer starting at cursor position `0`; on
success the result is the final cursor position (the frame length). -/
def Frame.check (buf : List Nat) : Except PErr Nat :=
  checkMany (buf.length + 1) 1 buf 0

/-- `Frame::parse` on a whole buffer starting at cursor position `0`; on
success the result is the frame and the final cursor position. -/
def Frame.parse (buf : List Nat) : Except PErr (Frame × Nat) :=
  match parseMany (buf.length + 1) 1 buf 0 with
  | .ok (f :: _, pos) => .ok (f, pos)
  | .ok ([], _) => .error (.other "internal")
  | .error e => .error e

/-! ## Frame writer (`src/connection.rs`) -/

/-- `Connection::write_value`: the bytes a literal frame puts on the stream.
The `Frame::Array` arm of the source is `unreachable!()` (async recursion is
not available), modelled as `none`: no bytes are produced, the task
panics.  Two statements of the source carry evident slips and the model uses
the intended code: the `Simple` arm writes its trailing CRLF through
`self.steram` (`src/connection.rs` line 195), an undeclared field and a slip
for `self.stream`, and the `Error` arm's first write ends in `.await()`
(`src/connection.rs` line 198), invalid syntax and a slip for `.await`; the
surrounding arms fix the intent (write the tag byte, the payload and CRLF to
the stream).  These two slips mean the crate does not build, so claims about
the `Simple` and `Error` encodings hold of the intended code, not of a
compiled artifact. -/
def Connection.writeValue : Frame → Option (List Nat)
  | .simple s => some (43 :: (s ++ [13, 10]))
  | .error s => some (45 :: (s ++ [13, 10]))
  | .integer n => some (58 :: (natDecimal n ++ [13, 10]))
  | .null => some [36, 45, 49, 13, 10]
  | .bulk b => some (36 :: (natDecimal b.length ++ [13, 10] ++ b ++ [13, 10]))
  | .array _ => none

/-- Concatenated `write_value` output of a list of frames (the loop of the
`Frame::Array` arm of `write_frame`); `none` as soon as one element panics. -/
def writeValues : List Frame → Option (List Nat)
  | [] => some []
  | f :: rest =>
    match Connection.writeValue f, writeValues rest with
    | some b, some bs => some (b ++ bs)
    | _, _ => none

/-- `Connection::write_frame`: a top-level array emits `*`, the length line
and each element through `write_value`; every other frame goes through
`write_value` directly. -/
def Connection.writeFrame : Frame → Option (List Nat)
  | .array items =>
    match writeValues items with
    | some body => some (42 :: (natDecimal items.length ++ [13, 10] ++ body))
    | none => none
  | f => Connection.writeValue f

/-! ## Shared database (`src/db.rs`) -/

/-- A stored entry (`Entry` in `src/db.rs`): unique id, value bytes, optional
expiration instant. -/
structure Entry where
  id : Nat
  data : List Nat
  expiresAt : Option Nat
deriving Repr, DecidableEq

/-- The shared state behind the mutex (`State` in `src/db.rs`).  `entries`
models the `HashMap` as an association list with distinct keys, `pubSub`
keeps for each channel the number of receivers of its broadcast sender,
`expirations` models the `BTreeMap` as a list sorted strictly by
`(deadline, id)`. -/
structure DbState where
  entries : List (List Nat × Entry)
  pubSub : List (List Nat × Nat)
  expirations : List ((Nat × Nat) × List Nat)
  nextId : Nat
  shutdown : Bool
deriving Repr, DecidableEq

/-- `HashMap::get` on the association-list model. -/
def mapLookup {α : Type} : List (List Nat × α) → List Nat → Option α
  | [], _ => none
  | (k, v) :: rest, key => if k = key then some v else mapLookup rest key

/-- `HashMap::insert` on the association-list model: the previous value for
the key, and the updated map. -/
def mapInsert {α : Type} : List (List Nat × α) → List Nat → α → Option α × List (List Nat × α)
  | [], key, v => (none, [(key, v)])
  | (k, w) :: rest, key, v =>
    if k = key then (some w, (key, v) :: rest)
    else
      let r := mapInsert rest key v
      (r.1, (k, w) :: r.2)

/-- `HashMap::remove` on the association-list model (keys are unique, so
removing the first match removes the entry). -/
def mapRemove {α : Type} : List (List Nat × α) → List Nat → List (List Nat × α)
  | [], _ => []
  | (k, w) :: rest, key => if k = key then rest else (k, w) :: mapRemove rest key

/-- The strict order on `(Instant, u64)` keys of the expirations `BTreeMap`
(lexicographic, as derived by `Ord` on the tuple). -/
def expLt (a b : Nat × Nat) : Bool := a.1 < b.1 || (a.1 = b.1 && a.2 < b.2)

/-- `BTreeMap::insert` on the sorted-list model; an equal key replaces the
stored value. -/
def btInsert : List ((Nat × Nat) × List Nat) → Nat × Nat → List Nat →
    List ((Nat × Nat) × List Nat)
  | [], k, v => [(k, v)]
  | (k2, v2) :: rest, k, v =>
    if expLt k k2 then (k, v) :: (k2, v2) :: rest
    else if k = k2 then (k, v) :: rest
    else (k2, v2) :: btInsert rest k v

/-- `BTreeMap::remove` on the sorted-list model (keys are unique, so removing
the first match removes the row). -/
def btRemove : List ((Nat × Nat) × List Nat) → Nat × Nat → List ((Nat × Nat) × List Nat)
  | [], _ => []
  | (k2, v2) :: rest, k => if k2 = k then rest else (k2, v2) :: btRemove rest k

/-- `State::next_expiration`: the instant of the smallest key of the
expirations map (its first key in sorted order). -/
def nextExpiration (l : List ((Nat × Nat) × List Nat)) : Option Nat :=
  l.head?.map (fun r => r.1.1)

/-- `Db::get` (`src/db.rs`): look the key up in `entries` and clone the data
bytes.  Note that no deadline is consulted. -/
def Db.get (s : DbState) (key : List Nat) : Option (List Nat) :=
  (mapLookup s.entries key).map Entry.data

/-- `Db::set` (`src/db.rs`): take the next id; when a ttl is given, compute
`when = now + duration`, decide `notify` against `next_expiration()` before
inserting the `(when, id) → key` row; insert the new entry capturing the
previous one; when the previous entry had a deadline, remove its old row.
Returns the new state and the `notify` flag.  The removal in the source is
guarded by `if let some(prev)` (`src/db.rs` line 178) where `some` is an
undeclared lowercase pattern, an evident slip for `Some`; the model uses the
intended `Some`. -/
def Db.set (s : DbState) (key value : List Nat) (expire : Option Nat) (now : Nat) :
    DbState × Bool :=
  match expire with
  | none =>
    let ins := mapInsert s.entries key ⟨s.nextId, value, none⟩
    let exps :=
      match ins.1 with
      | some prev =>
        match prev.expiresAt with
        | some w => btRemove s.expirations (w, prev.id)
        | none => s.expirations
      | none => s.expirations
    ({ s with entries := ins.2, expirations := exps, nextId := s.nextId + 1 }, false)
  | some duration =>
    let when := now + duration
    let notify :=
      match nextExpiration s.expirations with
      | none => true
      | some expiration => decide (when < expiration)
    let exps1 := btInsert s.expirations (when, s.nextId) key
    let ins := mapInsert s.entries key ⟨s.nextId, value, some when⟩
    let exps :=
      match ins.1 with
      | some prev =>
        match prev.expiresAt with
        | some w => btRemove exps1 (w, prev.id)
        | none => exps1
      | none => exps1
    ({ s with entries := ins.2, expirations := exps, nextId := s.nextId + 1 }, notify)

/-- `Db::subscribe` (`src/db.rs`): find or lazily create the channel's
broadcast sender and add one receiver; returns the new receiver count. -/
def Db.subscribe (s : DbState) (key : List Nat) : DbState × Nat :=
  match mapLookup s.pubSub key with
  | some n => ({ s with pubSub := (mapInsert s.pubSub key (n + 1)).2 }, n + 1)
  | none => ({ s with pubSub := (mapInsert s.pubSub key 1).2 }, 1)

/-- `Db::publish` (`src/db.rs`): send on the channel's broadcast sender when
one exists and return the receiver count (`0` when the send errs because no
receiver is left, and `0` when the channel is absent).  The broadcast queue
contents are outside this model; the state is unchanged. -/
def Db.publish (s : DbState) (key : List Nat) (value : List Nat) : DbState × Nat :=
  match mapLookup s.pubSub key with
  | some n => (s, n)
  | none => (s, 0)

/-- The `while let` loop of `Shared::purge_expired_keys`: walk the sorted
expirations from the smallest key; stop at the first row with `when > now`
and return it as the next deadline; otherwise remove the entry for the row's
key together with the row itself.  Returns the remaining entries, the
remaining rows and the next deadline. -/
def purgeLoop : List ((Nat × Nat) × List Nat) → List (List Nat × Entry) → Nat →
    List (List Nat × Entry) × List ((Nat × Nat) × List Nat) × Option Nat
  | [], entries, _ => (entries, [], none)
  | ((when, id), key) :: rest, entries, now =>
    if now < when then (entries, ((when, id), key) :: rest, some when)
    else purgeLoop rest (mapRemove entries key) now

/-- `Shared::purge_expired_keys` (`src/db.rs`): `none` without purging when
the database is shutting down; otherwise run the purge loop and return the
next deadline, if any. -/
def Shared.purgeExpiredKeys (s : DbState) (now : Nat) : DbState × Option Nat :=
  if s.shutdown then (s, none)
  else
    let r := purgeLoop s.expirations s.entries now
    ({ s with entries := r.1, expirations := r.2.1 }, r.2.2)

/-! ## Command parsing (`src/parse.rs`, `src/cmd/`) -/

/-- `ParseError` of `src/parse.rs`: only `EndOfStream` is handled at runtime;
every other error terminates the connection. -/
inductive ParseError where
  | endOfStream
  | other (msg : String)
deriving Repr, DecidableEq

/-- The `Parse` cursor is the list of remaining array entries;
`Parse::next_string` accepts Simple directly and Bulk through a UTF-8
check. -/
def Parse.nextString : List Frame → Except ParseError (List Nat × List Frame)
  | [] => .error .endOfStream
  | .simple s :: rest => .ok (s, rest)
  | .bulk data :: rest =>
    if validUtf8 data then .ok (data, rest)
    else .error (.other "protocol error; invalid string")
  | _ :: _ => .error (.other "protocol error; expected simple frame or bulk frame")

/-- `Parse::next_bytes`: Simple and Bulk both yield raw bytes. -/
def Parse.nextBytes : List Frame → Except ParseError (List Nat × List Frame)
  | [] => .error .endOfStream
  | .simple s :: rest => .ok (s, rest)
  | .bulk data :: rest => .ok (data, rest)
  | _ :: _ => .error (.other "protocol error; expected simple frame or bulk frame")

/-- `Parse::next_int`: an Integer frame directly, Simple and Bulk through
`atoi`. -/
def Parse.nextInt : List Frame → Except ParseError (Nat × List Frame)
  | [] => .error .endOfStream
  | .integer v :: rest => .ok (v, rest)
  | .simple s :: rest =>
    match atoi s with
    | some n => .ok (n, rest)
    | none => .error (.other "protocol error; invalid number")
  | .bulk data :: rest =>
    match atoi data with
    | some n => .ok (n, rest)
    | none => .error (.other "protocol error; invalid number")
  | _ :: _ => .error (.other "protocol error; expected int frame")

/-- `Parse::finish`: the array must be fully consumed. -/
def Parse.finish : List Frame → Except ParseError Unit
  | [] => .ok ()
  | _ :: _ => .error (.other "protocol error; expected end of frame, but there was more")

def strGet : List Nat := [103, 101, 116]
def strSet : List Nat := [115, 101, 116]
def strPub : List Nat := [112, 117, 98]
def strPublish : List Nat := [112, 117, 98, 108, 105, 115, 104]
def strSubscribe : List Nat := [115, 117, 98, 115, 99, 114, 105, 98, 101]
def strUnsubscribe : List Nat := [117, 110, 115, 117, 98, 115, 99, 114, 105, 98, 101]
def strMessage : List Nat := [109, 101, 115, 115, 97, 103, 101]
def strOK : List Nat := [79, 75]
def strEX : List Nat := [69, 88]
def strPX : List Nat := [80, 88]

/-- Bytes of the text `ERR unknown command` followed by a space and an
opening single quote. -/
def strErrUnknown : List Nat :=
  [69, 82, 82, 32, 117, 110, 107, 110, 111, 119, 110, 32, 99, 111, 109, 109, 97, 110, 100, 32, 39]

/-- The supported commands (`Command` in `src/cmd/mod.rs` together with the
fields of the per-command structs).  `expire` is in milliseconds. -/
inductive Command where
  | get (key : List Nat)
  | set (key value : List Nat) (expire : Option Nat)
  | publish (channel message : List Nat)
  | subscribe (channels : List (List Nat))
  | unsubscribe (channels : List (List Nat))
  | unknown (commandName : List Nat)
deriving Repr, DecidableEq

/-- `Get::parse_frames`: the key is the next string. -/
def Get.parseFrames (p : List Frame) : Except ParseError (List Nat × List Frame) :=
  Parse.nextString p

/-- `Set::parse_frames`: key, value, then optionally `EX seconds` or
`PX milliseconds` (matched after upper-casing); any other trailing string is
the error that aborts the connection; `EndOfStream` means no option.
`Duration::from_secs` is `1000 * secs` in the millisecond model.  The `EX`
arm of the source assigns the undeclared variable `expires` (`src/cmd/set.rs`
line 75), an evident slip for `expire`; the model performs the intended
assignment. -/
def Set.parseFrames (p : List Frame) :
    Except ParseError ((List Nat × List Nat × Option Nat) × List Frame) :=
  match Parse.nextString p with
  | .error e => .error e
  | .ok (key, p1) =>
    match Parse.nextBytes p1 with
    | .error e => .error e
    | .ok (value, p2) =>
      match Parse.nextString p2 with
      | .ok (s, p3) =>
        if asciiUpper s = strEX then
          match Parse.nextInt p3 with
          | .ok (secs, p4) => .ok ((key, value, some (1000 * secs)), p4)
          | .error e => .error e
        else if asciiUpper s = strPX then
          match Parse.nextInt p3 with
          | .ok (ms, p4) => .ok ((key, value, some ms), p4)
          | .error e => .error e
        else .error (.other "currently 'SET' only supports the expiration option")
      | .error .endOfStream => .ok ((key, value, none), p2)
      | .error e => .error e

/-- `Publish::parse_frames`: channel string then message bytes. -/
def Publish.parseFrames (p : List Frame) :
    Except ParseError ((List Nat × List Nat) × List Frame) :=
  match Parse.nextString p with
  | .error e => .error e
  | .ok (channel, p1) =>
    match Parse.nextBytes p1 with
    | .error e => .error e
    | .ok (message, p2) => .ok ((channel, message), p2)

/-- The `loop` of `Subscribe::parse_frames` / `Unsubscribe::parse_frames`:
collect strings until `EndOfStream`; a non-string entry is an error. -/
def stringList : List Frame → Except ParseError (List (List Nat))
  | [] => .ok []
  | .simple s :: rest => (stringList rest).map (fun l => s :: l)
  | .bulk data :: rest =>
    if validUtf8 data then (stringList rest).map (fun l => data :: l)
    else .error (.other "protocol error; invalid string")
  | _ :: _ => .error (.other "protocol error; expected simple frame or bulk frame")

/-- `Subscribe::parse_frames`: one mandatory channel, then the rest. -/
def Subscribe.parseFrames (p : List Frame) : Except ParseError (List (List Nat)) :=
  match Parse.nextString p with
  | .error e => .error e
  | .ok (first, p1) => (stringList p1).map (fun l => first :: l)

/-- `Unsubscribe::parse_frames`: zero or more channels. -/
def Unsubscribe.parseFrames (p : List Frame) : Except ParseError (List (List Nat)) :=
  stringList p

/-- `Command::from_frame` (`src/cmd/mod.rs`): the frame must be an array; the
lower-cased first string picks the command; on a match the remaining entries
must be fully consumed (`parse.finish()`); any other name returns
`Unknown(name)` at once, discarding the remaining entries. -/
def Command.fromFrame : Frame → Except ParseError Command
  | .array parts =>
    (match Parse.nextString parts with
    | .error e => .error e
    | .ok (name, p1) =>
      let commandName := asciiLower name
      if commandName = strGet then
        match Get.parseFrames p1 with
        | .ok (key, p2) => (Parse.finish p2).map (fun _ => .get key)
        | .error e => .error e
      else if commandName = strPublish then
        match Publish.parseFrames p1 with
        | .ok ((channel, message), p2) => (Parse.finish p2).map (fun _ => .publish channel message)
        | .error e => .error e
      else if commandName = strSet then
        match Set.parseFrames p1 with
        | .ok ((key, value, expire), p2) => (Parse.finish p2).map (fun _ => .set key value expire)
        | .error e => .error e
      else if commandName = strSubscribe then
        match Subscribe.parseFrames p1 with
        | .ok channels => .ok (.subscribe channels)
        | .error e => .error e
      else if commandName = strUnsubscribe then
        match Unsubscribe.parseFrames p1 with
        | .ok channels => .ok (.unsubscribe channels)
        | .error e => .error e
      else .ok (.unknown commandName))
  | _ => .error (.other "protocol error; expected array")

/-- `Command::get_name` (`src/cmd/mod.rs`). -/
def Command.getName : Command → List Nat
  | .get _ => strGet
  | .publish _ _ => strPub
  | .set _ _ _ => strSet
  | .subscribe _ => strSubscribe
  | .unsubscribe _ => strUnsubscribe
  | .unknown name => name

/-- The reply text of `Unknown::apply` (`src/cmd/unknown.rs`):
`ERR unknown command` with the name in single quotes. -/
def unknownCommandMsg (name : List Nat) : List Nat := strErrUnknown ++ name ++ [39]

/-! ## Connection handler (`src/server.rs`, command mode) -/

/-- What a single iteration of `Handler::run` does with one decoded frame. -/
inductive HandlerOutcome where
  | continueCmd
  | enterSubscriber (channels : List (List Nat))
  | closed
deriving Repr, DecidableEq

/-- Result of one handler iteration: database afterwards, frames written to
this connection, and whether the loop continues, enters subscriber mode or
the handler returns with an error (closing the connection). -/
structure StepOut where
  db : DbState
  written : List Frame
  outcome : HandlerOutcome

/-- `Command::apply` in command mode (`src/cmd/mod.rs` and the per-command
`apply` methods): Get replies Bulk or Null, Set stores and replies `+OK`,
Publish replies the subscriber count, Subscribe enters the subscriber loop,
Unsubscribe returns the error that closes the connection, Unknown replies the
`ERR unknown command` Error frame and continues.  The Unknown arm of the
source calls `cmd.apply(db)` (`src/cmd/mod.rs` line 108) where
`Unknown::apply` takes the connection; the model performs the intended
`cmd.apply(dst)`. -/
def Command.apply (db : DbState) (now : Nat) : Command → StepOut
  | .get key =>
    match Db.get db key with
    | some value => ⟨db, [Frame.bulk value], .continueCmd⟩
    | none => ⟨db, [Frame.null], .continueCmd⟩
  | .set key value expire =>
    ⟨(Db.set db key value expire now).1, [Frame.simple strOK], .continueCmd⟩
  | .publish channel message =>
    let r := Db.publish db channel message
    ⟨r.1, [Frame.integer r.2], .continueCmd⟩
  | .subscribe channels => ⟨db, [], .enterSubscriber channels⟩
  | .unsubscribe _ => ⟨db, [], .closed⟩
  | .unknown name => ⟨db, [Frame.error (unknownCommandMsg name)], .continueCmd⟩

/-- One iteration of the `Handler::run` loop (`src/server.rs`) on a received
frame: `Command::from_frame(frame)?` propagates a parse error, returning from
`run` with `Err` — the connection closes and nothing is written; otherwise
the command is applied. -/
def Handler.step (db : DbState) (now : Nat) (frame : Frame) : StepOut :=
  match Command.fromFrame frame with
  | .error _ => ⟨db, [], .closed⟩
  | .ok cmd => Command.apply db now cmd

/-! ## Subscriber mode (`src/cmd/subscribe.rs`) -/

/-- `make_subscribe_frame`. -/
def makeSubscribeFrame (channel : List Nat) (n : Nat) : Frame :=
  .array [.bulk strSubscribe, .bulk channel, .integer n]

/-- `make_unsubscribe_frame`. -/
def makeUnsubscribeFrame (channel : List Nat) (n : Nat) : Frame :=
  .array [.bulk strUnsubscribe, .bulk channel, .integer n]

/-- `make_message_frame`. -/
def makeMessageFrame (channel msg : List Nat) : Frame :=
  .array [.bulk strMessage, .bulk channel, .bulk msg]

/-- The `for` loop of the Unsubscribe arm of `handle_command`
(`src/cmd/subscribe.rs`): remove each requested channel from the
subscription map, replying after each removal with the channel and the
number of subscriptions still held.  The subscription `StreamMap` is
modelled by its key list. -/
def unsubLoop : List (List Nat) → List (List Nat) → List (List Nat) × List Frame
  | subs, [] => (subs, [])
  | subs, ch :: rest =>
    let subs1 := subs.erase ch
    let r := unsubLoop subs1 rest
    (r.1, makeUnsubscribeFrame ch subs1.length :: r.2)

/-- `handle_command` (`src/cmd/subscribe.rs`): in subscriber mode a frame
must parse to Subscribe (the channels extend the pending list), Unsubscribe
(an empty request expands to all current subscriptions, then the removal
loop runs), or anything else replies `ERR unknown command` and continues.
Returns the pending subscribe list, the subscription keys and the written
frames.  The catch-all arm of the source binds the scrutinee with the
pattern `Command` and then reads the undeclared `command`
(`src/cmd/subscribe.rs` lines 249-251), evident slips for a lowercase
binder; the model performs the intended reply. -/
def handleCommand (frame : Frame) (subscribeTo subs : List (List Nat)) :
    Except ParseError (List (List Nat) × List (List Nat) × List Frame) :=
  match Command.fromFrame frame with
  | .error e => .error e
  | .ok (.subscribe channels) => .ok (subscribeTo ++ channels, subs, [])
  | .ok (.unsubscribe channels) =>
    let chans := if channels.isEmpty then subs else channels
    let r := unsubLoop subs chans
    .ok (subscribeTo, r.1, r.2)
  | .ok cmd => .ok (subscribeTo, subs, [Frame.error (unknownCommandMsg (Command.getName cmd))])

/-! ## Well-formedness of the database state -/

/-- Well-formedness of a database state: distinct entry keys, the
expirations list strictly sorted by `(deadline, id)`, all ids below
`next_id`, and the two directions of the expiration invariant: every entry
with a deadline owns its `(deadline, id) → key` row, and every row points
back to a current entry with matching id and deadline. -/
def WFdb (s : DbState) : Prop :=
  (s.entries.map Prod.fst).Nodup ∧
  List.Pairwise (fun a b => expLt a.1 b.1 = true) s.expirations ∧
  (∀ p ∈ s.entries, p.2.id < s.nextId) ∧
  (∀ r ∈ s.expirations, r.1.2 < s.nextId) ∧
  (∀ p ∈ s.entries, ∀ d, p.2.expiresAt = some d → ((d, p.2.id), p.1) ∈ s.expirations) ∧
  (∀ r ∈ s.expirations, ∃ p ∈ s.entries, p.2.id = r.1.2 ∧ p.2.expiresAt = some r.1.1 ∧ p.1 = r.2)

lemma expLt_irrefl (a : Nat × Nat) : expLt a a = false := by
  simp [expLt]

lemma expLt_trans {a b c : Nat × Nat} (h1 : expLt a b = true) (h2 : expLt b c = true) :
    expLt a c = true := by
  simp only [expLt, Bool.or_eq_true, decide_eq_true_eq, Bool.and_eq_true] at *
  omega

lemma expLt_cases (a b : Nat × Nat) : expLt a b = true ∨ a = b ∨ expLt b a = true := by
  simp only [expLt, Bool.or_eq_true, decide_eq_true_eq, Bool.and_eq_true, Prod.ext_iff]
  omega

lemma expLt_ne {a b : Nat × Nat} (h : expLt a b = true) : a ≠ b := by
  rintro rfl
  simp [expLt_irrefl] at h

lemma expLt_le {a b : Nat × Nat} (h : expLt a b = true) : a.1 ≤ b.1 := by
  simp only [expLt, Bool.or_eq_true, decide_eq_true_eq, Bool.and_eq_true] at h
  omega

/-! ### Association-list map lemmas -/

lemma mapInsert_fst {α : Type} (m : List (List Nat × α)) (key : List Nat) (v : α) :
    (mapInsert m key v).1 = mapLookup m key := by
  induction m with
  | nil => simp [mapInsert, mapLookup]
  | cons p rest ih =>
    obtain ⟨k, w⟩ := p
    by_cases h : k = key <;> simp [mapInsert, mapLookup, h, ih]

lemma mapLookup_insert {α : Type} (m : List (List Nat × α)) (key k2 : List Nat) (v : α) :
    mapLookup (mapInsert m key v).2 k2 = if k2 = key then some v else mapLookup m k2 := by
  induction m with
  | nil =>
    by_cases h : k2 = key
    · subst h; simp [mapInsert, mapLookup]
    · simp [mapInsert, mapLookup, h, Ne.symm h]
  | cons q rest ih =>
    obtain ⟨k, w⟩ := q
    by_cases hk : k = key
    · subst hk
      by_cases h2 : k2 = k
      · subst h2; simp [mapInsert, mapLookup]
      · simp [mapInsert, mapLookup, h2, Ne.symm h2]
    · by_cases h2 : k = k2
      · subst h2
        simp [mapInsert, mapLookup, hk]
      · simp [mapInsert, mapLookup, hk, h2, ih]

lemma mapInsert_mem {α : Type} {m : List (List Nat × α)} (hnd : (m.map Prod.fst).Nodup)
    (key : List Nat) (v : α) (p : List Nat × α) :
    p ∈ (mapInsert m key v).2 ↔ p = (key, v) ∨ (p ∈ m ∧ p.1 ≠ key) := by
  induction m with
  | nil => simp [mapInsert]
  | cons q rest ih =>
    obtain ⟨k, w⟩ := q
    simp only [List.map_cons, List.nodup_cons, List.mem_map] at hnd
    have ih2 := ih hnd.2
    by_cases hk : k = key
    · subst hk
      simp only [mapInsert, if_pos, List.mem_cons]
      constructor
      · rintro (rfl | hp)
        · exact Or.inl rfl
        · refine Or.inr ⟨Or.inr hp, ?_⟩
          intro hpk
          exact hnd.1 ⟨p, hp, hpk⟩
      · rintro (rfl | ⟨hp, hne⟩)
        · exact Or.inl rfl
        · rcases hp with rfl | hp2
          · exact absurd rfl hne
          · exact Or.inr hp2
    · simp only [mapInsert, if_neg hk, List.mem_cons, ih2]
      constructor
      · rintro (rfl | h)
        · exact Or.inr ⟨Or.inl rfl, hk⟩
        · rcases h with rfl | ⟨hp, hne⟩
          · exact Or.inl rfl
          · exact Or.inr ⟨Or.inr hp, hne⟩
      · rintro (rfl | ⟨hp, hne⟩)
        · exact Or.inr (Or.inl rfl)
        · rcases hp with rfl | hp2
          · exact Or.inl rfl
          · exact Or.inr (Or.inr ⟨hp2, hne⟩)

lemma mapInsert_nodup {α : Type} {m : List (List Nat × α)} (hnd : (m.map Prod.fst).Nodup)
    (key : List Nat) (v : α) : ((mapInsert m key v).2.map Prod.fst).Nodup := by
  induction m with
  | nil => simp [mapInsert]
  | cons q rest ih =>
    obtain ⟨k, w⟩ := q
    simp only [List.map_cons, List.nodup_cons, List.mem_map] at hnd
    by_cases hk : k = key
    · subst hk
      simp only [mapInsert, if_pos, List.map_cons, List.nodup_cons, List.mem_map]
      exact ⟨hnd.1, hnd.2⟩
    · simp only [mapInsert, if_neg hk, List.map_cons, List.nodup_cons, List.mem_map]
      refine ⟨?_, ih hnd.2⟩
      rintro ⟨p, hp, hpk⟩
      rw [mapInsert_mem hnd.2] at hp
      rcases hp with rfl | ⟨hp, _⟩
      · exact hk hpk.symm
      · exact hnd.1 ⟨p, hp, hpk⟩

lemma mapRemove_sublist {α : Type} (m : List (List Nat × α)) (key : List Nat) :
    (mapRemove m key).Sublist m := by
  induction m with
  | nil => simp [mapRemove]
  | cons q rest ih =>
    obtain ⟨k, w⟩ := q
    by_cases hk : k = key
    · simp only [mapRemove, if_pos hk]
      exact List.sublist_cons_self (k, w) rest
    · simpa [mapRemove, hk] using ih.cons₂ (k, w)

lemma mapRemove_mem {α : Type} {m : List (List Nat × α)} (hnd : (m.map Prod.fst).Nodup)
    (key : List Nat) (p : List Nat × α) :
    p ∈ mapRemove m key ↔ p ∈ m ∧ p.1 ≠ key := by
  induction m with
  | nil => simp [mapRemove]
  | cons q rest ih =>
    obtain ⟨k, w⟩ := q
    simp only [List.map_cons, List.nodup_cons, List.mem_map] at hnd
    have ih2 := ih hnd.2
    by_cases hk : k = key
    · subst hk
      simp only [mapRemove, if_pos, List.mem_cons]
      constructor
      · intro hp
        refine ⟨Or.inr hp, ?_⟩
        intro hpk
        exact hnd.1 ⟨p, hp, hpk⟩
      · rintro ⟨hp, hne⟩
        rcases hp with rfl | hp2
        · exact absurd rfl hne
        · exact hp2
    · simp only [mapRemove, if_neg hk, List.mem_cons, ih2]
      constructor
      · rintro (rfl | ⟨hp, hne⟩)
        · exact ⟨Or.inl rfl, hk⟩
        · exact ⟨Or.inr hp, hne⟩
      · rintro ⟨hp, hne⟩
        rcases hp with rfl | hp2
        · exact Or.inl rfl
        · exact Or.inr ⟨hp2, hne⟩

lemma mapLookup_eq_none {α : Type} (m : List (List Nat × α)) (key : List Nat) :
    mapLookup m key = none ↔ ∀ p ∈ m, p.1 ≠ key := by
  induction m with
  | nil => simp [mapLookup]
  | cons q rest ih =>
    obtain ⟨k, w⟩ := q
    by_cases hk : k = key
    · simp [mapLookup, hk]
    · simp [mapLookup, hk, ih]

lemma mapLookup_remove {α : Type} {m : List (List Nat × α)} (hnd : (m.map Prod.fst).Nodup)
    (key k2 : List Nat) :
    mapLookup (mapRemove m key) k2 = if k2 = key then none else mapLookup m k2 := by
  induction m with
  | nil => simp [mapRemove, mapLookup]
  | cons q rest ih =>
    obtain ⟨k, w⟩ := q
    simp only [List.map_cons, List.nodup_cons, List.mem_map] at hnd
    have ih2 := ih hnd.2
    by_cases hk : k = key
    · subst hk
      by_cases h2 : k2 = k
      · subst h2
        simp only [mapRemove, if_pos, if_true]
        rw [mapLookup_eq_none]
        intro p hp hpk
        exact hnd.1 ⟨p, hp, hpk⟩
      · simp [mapRemove, mapLookup, h2, Ne.symm h2]
    · by_cases h2 : k = k2
      · subst h2
        have hne : ¬(k = key) := hk
        simp [mapRemove, mapLookup, hk]
      · simp [mapRemove, mapLookup, hk, h2, ih2]

lemma mapRemove_nodup {α : Type} {m : List (List Nat × α)} (hnd : (m.map Prod.fst).Nodup)
    (key : List Nat) : ((mapRemove m key).map Prod.fst).Nodup :=
  ((mapRemove_sublist m key).map Prod.fst).nodup hnd

lemma pairwise_expLt_keys_nodup {l : List ((Nat × Nat) × List Nat)}
    (h : List.Pairwise (fun a b => expLt a.1 b.1 = true) l) :
    (l.map Prod.fst).Nodup := by
  unfold List.Nodup
  rw [List.pairwise_map]
  exact h.imp (fun hab => expLt_ne hab)

lemma mapLookup_mem {α : Type} {m : List (List Nat × α)} {key : List Nat} {v : α}
    (h : mapLookup m key = some v) : (key, v) ∈ m := by
  induction m with
  | nil => simp [mapLookup] at h
  | cons q rest ih =>
    obtain ⟨k, w⟩ := q
    by_cases hk : k = key
    · subst hk
      simp only [mapLookup, if_pos, Option.some.injEq] at h
      subst h
      exact List.mem_cons_self _ _
    · simp only [mapLookup, if_neg hk] at h
      exact List.mem_cons_of_mem _ (ih h)

lemma mem_mapLookup {α : Type} {m : List (List Nat × α)} (hnd : (m.map Prod.fst).Nodup)
    {key : List Nat} {v : α} (h : (key, v) ∈ m) : mapLookup m key = some v := by
  induction m with
  | nil => simp at h
  | cons q rest ih =>
    obtain ⟨k, w⟩ := q
    simp only [List.map_cons, List.nodup_cons, List.mem_map] at hnd
    rcases List.mem_cons.mp h with heq | hmem
    · cases heq
      simp [mapLookup]
    · by_cases hk : k = key
      · subst hk
        exact absurd ⟨(k, v), hmem, rfl⟩ hnd.1
      · simp only [mapLookup, if_neg hk]
        exact ih hnd.2 hmem

lemma entries_key_unique {α : Type} {m : List (List Nat × α)} (hnd : (m.map Prod.fst).Nodup)
    {p q : List Nat × α} (hp : p ∈ m) (hq : q ∈ m) (hkey : p.1 = q.1) : p = q :=
  List.inj_on_of_nodup_map hnd hp hq hkey

lemma rows_key_unique {l : List ((Nat × Nat) × List Nat)}
    (h : List.Pairwise (fun a b => expLt a.1 b.1 = true) l)
    {r1 r2 : (Nat × Nat) × List Nat} (h1 : r1 ∈ l) (h2 : r2 ∈ l) (hkey : r1.1 = r2.1) :
    r1 = r2 :=
  List.inj_on_of_nodup_map (pairwise_expLt_keys_nodup h) h1 h2 hkey

/-! ### Sorted expirations-map lemmas -/

lemma btInsert_mem {l : List ((Nat × Nat) × List Nat)}
    (hs : List.Pairwise (fun a b => expLt a.1 b.1 = true) l)
    (k : Nat × Nat) (v : List Nat) (r : (Nat × Nat) × List Nat) :
    r ∈ btInsert l k v ↔ r = (k, v) ∨ (r ∈ l ∧ r.1 ≠ k) := by
  induction l with
  | nil => simp [btInsert]
  | cons q rest ih =>
    obtain ⟨k2, v2⟩ := q
    obtain ⟨hhead, htail⟩ := List.pairwise_cons.mp hs
    by_cases hlt : expLt k k2 = true
    · simp only [btInsert, if_pos hlt, List.mem_cons]
      constructor
      · rintro (rfl | rfl | hm)
        · exact Or.inl rfl
        · exact Or.inr ⟨Or.inl rfl, Ne.symm (expLt_ne hlt)⟩
        · refine Or.inr ⟨Or.inr hm, ?_⟩
          have := expLt_trans hlt (hhead _ hm)
          exact fun hr => (expLt_ne this) hr.symm
      · rintro (rfl | ⟨rfl | hm2, hne⟩)
        · exact Or.inl rfl
        · exact Or.inr (Or.inl rfl)
        · exact Or.inr (Or.inr hm2)
    · by_cases heq : k = k2
      · subst heq
        simp only [btInsert, if_neg hlt, if_pos, List.mem_cons]
        constructor
        · rintro (rfl | hm)
          · exact Or.inl rfl
          · refine Or.inr ⟨Or.inr hm, ?_⟩
            have := hhead _ hm
            exact fun hr => (expLt_ne this) hr.symm
        · rintro (rfl | ⟨rfl | hm2, hne⟩)
          · exact Or.inl rfl
          · exact absurd rfl hne
          · exact Or.inr hm2
      · simp only [btInsert, if_neg hlt, if_neg heq, List.mem_cons, ih htail]
        constructor
        · rintro (rfl | rfl | ⟨hm, hne⟩)
          · exact Or.inr ⟨Or.inl rfl, fun hr => heq hr.symm⟩
          · exact Or.inl rfl
          · exact Or.inr ⟨Or.inr hm, hne⟩
        · rintro (rfl | ⟨rfl | hm2, hne⟩)
          · exact Or.inr (Or.inl rfl)
          · exact Or.inl rfl
          · exact Or.inr (Or.inr ⟨hm2, hne⟩)

lemma btInsert_pairwise {l : List ((Nat × Nat) × List Nat)}
    (hs : List.Pairwise (fun a b => expLt a.1 b.1 = true) l)
    (k : Nat × Nat) (v : List Nat) :
    List.Pairwise (fun a b => expLt a.1 b.1 = true) (btInsert l k v) := by
  induction l with
  | nil => simp [btInsert]
  | cons q rest ih =>
    obtain ⟨k2, v2⟩ := q
    obtain ⟨hhead, htail⟩ := List.pairwise_cons.mp hs
    by_cases hlt : expLt k k2 = true
    · simp only [btInsert, if_pos hlt]
      refine List.Pairwise.cons ?_ hs
      intro r hr
      rcases List.mem_cons.mp hr with rfl | hm
      · exact hlt
      · exact expLt_trans hlt (hhead _ hm)
    · by_cases heq : k = k2
      · subst heq
        simp only [btInsert, if_neg hlt, if_pos]
        exact List.Pairwise.cons (fun r hr => hhead _ hr) htail
      · simp only [btInsert, if_neg hlt, if_neg heq]
        refine List.Pairwise.cons ?_ (ih htail)
        intro r hr
        rw [btInsert_mem htail] at hr
        rcases hr with rfl | ⟨hm, _⟩
        · rcases expLt_cases k k2 with h | h | h
          · exact absurd h hlt
          · exact absurd h heq
          · exact h
        · exact hhead _ hm

lemma btRemove_sublist (l : List ((Nat × Nat) × List Nat)) (k : Nat × Nat) :
    (btRemove l k).Sublist l := by
  induction l with
  | nil => simp [btRemove]
  | cons q rest ih =>
    obtain ⟨k2, v2⟩ := q
    by_cases hk : k2 = k
    · simp only [btRemove, if_pos hk]
      exact List.sublist_cons_self (k2, v2) rest
    · simp only [btRemove, if_neg hk]
      exact ih.cons₂ (k2, v2)

lemma btRemove_pairwise {l : List ((Nat × Nat) × List Nat)}
    (hs : List.Pairwise (fun a b => expLt a.1 b.1 = true) l) (k : Nat × Nat) :
    List.Pairwise (fun a b => expLt a.1 b.1 = true) (btRemove l k) :=
  hs.sublist (btRemove_sublist l k)

lemma btRemove_mem {l : List ((Nat × Nat) × List Nat)}
    (hs : List.Pairwise (fun a b => expLt a.1 b.1 = true) l)
    (k : Nat × Nat) (r : (Nat × Nat) × List Nat) :
    r ∈ btRemove l k ↔ r ∈ l ∧ r.1 ≠ k := by
  induction l with
  | nil => simp [btRemove]
  | cons q rest ih =>
    obtain ⟨k2, v2⟩ := q
    obtain ⟨hhead, htail⟩ := List.pairwise_cons.mp hs
    by_cases hk : k2 = k
    · subst hk
      simp only [btRemove, if_pos, List.mem_cons]
      constructor
      · intro hm
        refine ⟨Or.inr hm, ?_⟩
        have := hhead _ hm
        exact fun hr => (expLt_ne this) hr.symm
      · rintro ⟨rfl | hm, hne⟩
        · exact absurd rfl hne
        · exact hm
    · simp only [btRemove, if_neg hk, List.mem_cons, ih htail]
      constructor
      · rintro (rfl | ⟨hm, hne⟩)
        · exact ⟨Or.inl rfl, hk⟩
        · exact ⟨Or.inr hm, hne⟩
      · rintro ⟨rfl | hm, hne⟩
        · exact Or.inl rfl
        · exact Or.inr ⟨hm, hne⟩

lemma pairwise_head_min {r : (Nat × Nat) × List Nat} {rest : List ((Nat × Nat) × List Nat)}
    (hs : List.Pairwise (fun a b => expLt a.1 b.1 = true) (r :: rest)) :
    ∀ x ∈ r :: rest, r.1.1 ≤ x.1.1 := by
  intro x hx
  rcases List.mem_cons.mp hx with rfl | hm
  · exact Nat.le_refl _
  · exact expLt_le ((List.pairwise_cons.mp hs).1 x hm)

lemma rows_filter_singleton {l : List ((Nat × Nat) × List Nat)}
    (hs : List.Pairwise (fun a b => expLt a.1 b.1 = true) l)
    {r : (Nat × Nat) × List Nat} (hr : r ∈ l) :
    (l.filter (fun x => decide (x.1 = r.1))).length = 1 := by
  induction l with
  | nil => simp at hr
  | cons q rest ih =>
    obtain ⟨hhead, htail⟩ := List.pairwise_cons.mp hs
    rcases List.mem_cons.mp hr with rfl | hm
    · have hnone : rest.filter (fun x => decide (x.1 = r.1)) = [] := by
        rw [List.filter_eq_nil_iff]
        intro x hx
        simp only [decide_eq_true_eq]
        have := hhead _ hx
        exact fun he => (expLt_ne this) he.symm
      simp [List.filter_cons, hnone]
    · have hq : ¬(q.1 = r.1) := by
        have := hhead _ hm
        exact fun he => (expLt_ne this) he
      simp only [List.filter_cons, decide_eq_true_eq, hq, if_false]
      exact ih htail hm

/-! ### Invariant preservation -/

lemma WFdb_of_fields_eq {s s' : DbState} (he : s'.entries = s.entries)
    (hx : s'.expirations = s.expirations) (hn : s'.nextId = s.nextId) (h : WFdb s) :
    WFdb s' := by
  unfold WFdb at *
  rw [he, hx, hn]
  exact h

lemma set_none_eq (s : DbState) (key value : List Nat) (now : Nat) :
    Db.set s key value none now =
      ({ s with
        entries := (mapInsert s.entries key ⟨s.nextId, value, none⟩).2,
        expirations :=
          match mapLookup s.entries key with
          | some prev =>
            match prev.expiresAt with
            | some w => btRemove s.expirations (w, prev.id)
            | none => s.expirations
          | none => s.expirations,
        nextId := s.nextId + 1 }, false) := by
  simp only [Db.set, mapInsert_fst]

lemma set_some_eq (s : DbState) (key value : List Nat) (dur now : Nat) :
    Db.set s key value (some dur) now =
      ({ s with
        entries := (mapInsert s.entries key ⟨s.nextId, value, some (now + dur)⟩).2,
        expirations :=
          match mapLookup s.entries key with
          | some prev =>
            match prev.expiresAt with
            | some w => btRemove (btInsert s.expirations (now + dur, s.nextId) key) (w, prev.id)
            | none => btInsert s.expirations (now + dur, s.nextId) key
          | none => btInsert s.expirations (now + dur, s.nextId) key,
        nextId := s.nextId + 1 },
       match nextExpiration s.expirations with
       | none => true
       | some expiration => decide (now + dur < expiration)) := by
  simp only [Db.set, mapInsert_fst]

lemma set_preserves_WFdb {s : DbState} (h : WFdb s) (key value : List Nat)
    (expire : Option Nat) (now : Nat) : WFdb (Db.set s key value expire now).1 := by
  obtain ⟨hnd, hsort, hidE, hidX, hinv1, hinv2⟩ := h
  cases expire with
  | none =>
    rw [set_none_eq]
    rcases hprev : mapLookup s.entries key with _ | prev
    all_goals simp only [hprev]
    · -- no previous entry
      refine ⟨mapInsert_nodup hnd key _, hsort, ?_, ?_, ?_, ?_⟩
      · intro p hp
        rw [mapInsert_mem hnd] at hp
        rcases hp with rfl | ⟨hp, _⟩
        · exact Nat.lt_succ_self _
        · exact Nat.lt_succ_of_lt (hidE p hp)
      · intro r hr
        exact Nat.lt_succ_of_lt (hidX r hr)
      · intro p hp d hd
        rw [mapInsert_mem hnd] at hp
        rcases hp with rfl | ⟨hp, _⟩
        · simp at hd
        · exact hinv1 p hp d hd
      · intro r hr
        obtain ⟨p0, hp0, hid0, hexp0, hkey0⟩ := hinv2 r hr
        have hne0 : p0.1 ≠ key := by
          intro hk0
          have : mapLookup s.entries p0.1 = some p0.2 := mem_mapLookup hnd hp0
          rw [hk0, hprev] at this
          cases this
        refine ⟨p0, ?_, hid0, hexp0, hkey0⟩
        rw [mapInsert_mem hnd]
        exact Or.inr ⟨hp0, hne0⟩
    · -- a previous entry exists
      have hprevMem : (key, prev) ∈ s.entries := mapLookup_mem hprev
      rcases hw : prev.expiresAt with _ | w
      all_goals simp only [hw]
      · -- previous entry had no deadline
        refine ⟨mapInsert_nodup hnd key _, hsort, ?_, ?_, ?_, ?_⟩
        · intro p hp
          rw [mapInsert_mem hnd] at hp
          rcases hp with rfl | ⟨hp, _⟩
          · exact Nat.lt_succ_self _
          · exact Nat.lt_succ_of_lt (hidE p hp)
        · intro r hr
          exact Nat.lt_succ_of_lt (hidX r hr)
        · intro p hp d hd
          rw [mapInsert_mem hnd] at hp
          rcases hp with rfl | ⟨hp, _⟩
          · simp at hd
          · exact hinv1 p hp d hd
        · intro r hr
          obtain ⟨p0, hp0, hid0, hexp0, hkey0⟩ := hinv2 r hr
          have hne0 : p0.1 ≠ key := by
            intro hk0
            have hpe : p0 = (key, prev) := entries_key_unique hnd hp0 hprevMem hk0
            rw [hpe] at hexp0
            rw [hw] at hexp0
            cases hexp0
          refine ⟨p0, ?_, hid0, hexp0, hkey0⟩
          rw [mapInsert_mem hnd]
          exact Or.inr ⟨hp0, hne0⟩
      · -- previous entry had a deadline: its row is removed
        have hprow : ((w, prev.id), key) ∈ s.expirations := hinv1 (key, prev) hprevMem w hw
        refine ⟨mapInsert_nodup hnd key _, btRemove_pairwise hsort _, ?_, ?_, ?_, ?_⟩
        · intro p hp
          rw [mapInsert_mem hnd] at hp
          rcases hp with rfl | ⟨hp, _⟩
          · exact Nat.lt_succ_self _
          · exact Nat.lt_succ_of_lt (hidE p hp)
        · intro r hr
          exact Nat.lt_succ_of_lt (hidX r ((btRemove_sublist _ _).subset hr))
        · intro p hp d hd
          rw [mapInsert_mem hnd] at hp
          rcases hp with rfl | ⟨hp, hne⟩
          · simp at hd
          · have hrow := hinv1 p hp d hd
            rw [btRemove_mem hsort]
            refine ⟨hrow, ?_⟩
            intro heq2
            have h12 : (((d, p.2.id), p.1) : (Nat × Nat) × List Nat).1 =
                (((w, prev.id), key) : (Nat × Nat) × List Nat).1 := heq2
            have := rows_key_unique hsort hrow hprow h12
            have : p.1 = key := congrArg Prod.snd this
            exact hne this
        · intro r hr
          rw [btRemove_mem hsort] at hr
          obtain ⟨hrL, hrne⟩ := hr
          obtain ⟨p0, hp0, hid0, hexp0, hkey0⟩ := hinv2 r hrL
          have hne0 : p0.1 ≠ key := by
            intro hk0
            have hpe : p0 = (key, prev) := entries_key_unique hnd hp0 hprevMem hk0
            rw [hpe] at hexp0 hid0
            rw [hw] at hexp0
            cases hexp0
            apply hrne
            have : r.1 = (r.1.1, r.1.2) := rfl
            rw [this, ← hid0]
          refine ⟨p0, ?_, hid0, hexp0, hkey0⟩
          rw [mapInsert_mem hnd]
          exact Or.inr ⟨hp0, hne0⟩
  | some dur =>
    rw [set_some_eq]
    have hsort1 := btInsert_pairwise hsort (now + dur, s.nextId) key
    have hnewRow : ((now + dur, s.nextId), key) ∈ btInsert s.expirations (now + dur, s.nextId) key := by
      rw [btInsert_mem hsort]
      exact Or.inl rfl
    have holdRow : ∀ r ∈ s.expirations,
        r ∈ btInsert s.expirations (now + dur, s.nextId) key := by
      intro r hr
      rw [btInsert_mem hsort]
      refine Or.inr ⟨hr, ?_⟩
      intro he
      have := hidX r hr
      rw [he] at this
      exact absurd rfl (Nat.ne_of_lt this)
    have hins_mem : ∀ r ∈ btInsert s.expirations (now + dur, s.nextId) key,
        r = ((now + dur, s.nextId), key) ∨ r ∈ s.expirations := by
      intro r hr
      rw [btInsert_mem hsort] at hr
      rcases hr with rfl | ⟨hr, _⟩
      · exact Or.inl rfl
      · exact Or.inr hr
    rcases hprev : mapLookup s.entries key with _ | prev
    all_goals simp only [hprev]
    · -- no previous entry
      refine ⟨mapInsert_nodup hnd key _, hsort1, ?_, ?_, ?_, ?_⟩
      · intro p hp
        rw [mapInsert_mem hnd] at hp
        rcases hp with rfl | ⟨hp, _⟩
        · exact Nat.lt_succ_self _
        · exact Nat.lt_succ_of_lt (hidE p hp)
      · intro r hr
        rcases hins_mem r hr with rfl | hr2
        · exact Nat.lt_succ_self _
        · exact Nat.lt_succ_of_lt (hidX r hr2)
      · intro p hp d hd
        rw [mapInsert_mem hnd] at hp
        rcases hp with rfl | ⟨hp, _⟩
        · simp only [Option.some.injEq] at hd
          subst hd
          exact hnewRow
        · exact holdRow _ (hinv1 p hp d hd)
      · intro r hr
        rcases hins_mem r hr with rfl | hr2
        · refine ⟨(key, ⟨s.nextId, value, some (now + dur)⟩), ?_, rfl, rfl, rfl⟩
          rw [mapInsert_mem hnd]
          exact Or.inl rfl
        · obtain ⟨p0, hp0, hid0, hexp0, hkey0⟩ := hinv2 r hr2
          have hne0 : p0.1 ≠ key := by
            intro hk0
            have : mapLookup s.entries p0.1 = some p0.2 := mem_mapLookup hnd hp0
            rw [hk0, hprev] at this
            cases this
          refine ⟨p0, ?_, hid0, hexp0, hkey0⟩
          rw [mapInsert_mem hnd]
          exact Or.inr ⟨hp0, hne0⟩
    · have hprevMem : (key, prev) ∈ s.entries := mapLookup_mem hprev
      have hprevId : prev.id < s.nextId := hidE (key, prev) hprevMem
      rcases hw : prev.expiresAt with _ | w
      all_goals simp only [hw]
      · -- previous entry had no deadline
        refine ⟨mapInsert_nodup hnd key _, hsort1, ?_, ?_, ?_, ?_⟩
        · intro p hp
          rw [mapInsert_mem hnd] at hp
          rcases hp with rfl | ⟨hp, _⟩
          · exact Nat.lt_succ_self _
          · exact Nat.lt_succ_of_lt (hidE p hp)
        · intro r hr
          rcases hins_mem r hr with rfl | hr2
          · exact Nat.lt_succ_self _
          · exact Nat.lt_succ_of_lt (hidX r hr2)
        · intro p hp d hd
          rw [mapInsert_mem hnd] at hp
          rcases hp with rfl | ⟨hp, _⟩
          · simp only [Option.some.injEq] at hd
            subst hd
            exact hnewRow
          · exact holdRow _ (hinv1 p hp d hd)
        · intro r hr
          rcases hins_mem r hr with rfl | hr2
          · refine ⟨(key, ⟨s.nextId, value, some (now + dur)⟩), ?_, rfl, rfl, rfl⟩
            rw [mapInsert_mem hnd]
            exact Or.inl rfl
          · obtain ⟨p0, hp0, hid0, hexp0, hkey0⟩ := hinv2 r hr2
            have hne0 : p0.1 ≠ key := by
              intro hk0
              have hpe : p0 = (key, prev) := entries_key_unique hnd hp0 hprevMem hk0
              rw [hpe] at hexp0
              rw [hw] at hexp0
              cases hexp0
            refine ⟨p0, ?_, hid0, hexp0, hkey0⟩
            rw [mapInsert_mem hnd]
            exact Or.inr ⟨hp0, hne0⟩
      · -- previous entry had a deadline: its row is removed after the insert
        have hprow : ((w, prev.id), key) ∈ s.expirations := hinv1 (key, prev) hprevMem w hw
        refine ⟨mapInsert_nodup hnd key _, btRemove_pairwise hsort1 _, ?_, ?_, ?_, ?_⟩
        · intro p hp
          rw [mapInsert_mem hnd] at hp
          rcases hp with rfl | ⟨hp, _⟩
          · exact Nat.lt_succ_self _
          · exact Nat.lt_succ_of_lt (hidE p hp)
        · intro r hr
          rcases hins_mem r ((btRemove_sublist _ _).subset hr) with rfl | hr2
          · exact Nat.lt_succ_self _
          · exact Nat.lt_succ_of_lt (hidX r hr2)
        · intro p hp d hd
          rw [mapInsert_mem hnd] at hp
          rw [btRemove_mem hsort1]
          rcases hp with rfl | ⟨hp, hne⟩
          · simp only [Option.some.injEq] at hd
            subst hd
            refine ⟨hnewRow, ?_⟩
            intro heq2
            have : s.nextId = prev.id := congrArg Prod.snd heq2
            omega
          · have hrow := hinv1 p hp d hd
            refine ⟨holdRow _ hrow, ?_⟩
            intro heq2
            have h12 : (((d, p.2.id), p.1) : (Nat × Nat) × List Nat).1 =
                (((w, prev.id), key) : (Nat × Nat) × List Nat).1 := heq2
            have := rows_key_unique hsort hrow hprow h12
            have : p.1 = key := congrArg Prod.snd this
            exact hne this
        · intro r hr
          rw [btRemove_mem hsort1] at hr
          obtain ⟨hr1, hrne⟩ := hr
          rcases hins_mem r hr1 with rfl | hr2
          · refine ⟨(key, ⟨s.nextId, value, some (now + dur)⟩), ?_, rfl, rfl, rfl⟩
            rw [mapInsert_mem hnd]
            exact Or.inl rfl
          · obtain ⟨p0, hp0, hid0, hexp0, hkey0⟩ := hinv2 r hr2
            have hne0 : p0.1 ≠ key := by
              intro hk0
              have hpe : p0 = (key, prev) := entries_key_unique hnd hp0 hprevMem hk0
              rw [hpe] at hexp0 hid0
              rw [hw] at hexp0
              cases hexp0
              apply hrne
              have hre : r.1 = (r.1.1, r.1.2) := rfl
              rw [hre, ← hid0]
            refine ⟨p0, ?_, hid0, hexp0, hkey0⟩
            rw [mapInsert_mem hnd]
            exact Or.inr ⟨hp0, hne0⟩

lemma purgeLoop_preserves :
    ∀ (l : List ((Nat × Nat) × List Nat)) (entries : List (List Nat × Entry)) (now : Nat),
      (entries.map Prod.fst).Nodup →
      List.Pairwise (fun a b => expLt a.1 b.1 = true) l →
      (∀ p ∈ entries, ∀ d, p.2.expiresAt = some d → ((d, p.2.id), p.1) ∈ l) →
      (∀ r ∈ l, ∃ p ∈ entries, p.2.id = r.1.2 ∧ p.2.expiresAt = some r.1.1 ∧ p.1 = r.2) →
      (purgeLoop l entries now).1.Sublist entries ∧
      (purgeLoop l entries now).2.1.Sublist l ∧
      ((purgeLoop l entries now).1.map Prod.fst).Nodup ∧
      List.Pairwise (fun a b => expLt a.1 b.1 = true) (purgeLoop l entries now).2.1 ∧
      (∀ p ∈ (purgeLoop l entries now).1, ∀ d, p.2.expiresAt = some d →
        ((d, p.2.id), p.1) ∈ (purgeLoop l entries now).2.1) ∧
      (∀ r ∈ (purgeLoop l entries now).2.1, ∃ p ∈ (purgeLoop l entries now).1,
        p.2.id = r.1.2 ∧ p.2.expiresAt = some r.1.1 ∧ p.1 = r.2) := by
  intro l
  induction l with
  | nil =>
    intro entries now hnd hsort hinv1 hinv2
    refine ⟨List.Sublist.refl _, List.Sublist.refl _, hnd, List.Pairwise.nil, ?_, ?_⟩
    · intro p hp d hd
      exact absurd (hinv1 p hp d hd) (List.not_mem_nil _)
    · intro r hr
      exact absurd hr (List.not_mem_nil _)
  | cons head rest ih =>
    intro entries now hnd hsort hinv1 hinv2
    obtain ⟨⟨when, id⟩, key⟩ := head
    obtain ⟨hhead, htail⟩ := List.pairwise_cons.mp hsort
    by_cases hnow : now < when
    · simp only [purgeLoop, if_pos hnow]
      exact ⟨List.Sublist.refl _, List.Sublist.refl _, hnd, hsort, hinv1, hinv2⟩
    · simp only [purgeLoop, if_neg hnow]
      have hnd2 := mapRemove_nodup hnd key
      have hinv1R : ∀ p ∈ mapRemove entries key, ∀ d, p.2.expiresAt = some d →
          ((d, p.2.id), p.1) ∈ rest := by
        intro p hp d hd
        rw [mapRemove_mem hnd] at hp
        obtain ⟨hp, hne⟩ := hp
        have hrow := hinv1 p hp d hd
        rcases List.mem_cons.mp hrow with heq | hm
        · have : p.1 = key := congrArg Prod.snd heq
          exact absurd this hne
        · exact hm
      have hinv2R : ∀ r ∈ rest, ∃ p ∈ mapRemove entries key,
          p.2.id = r.1.2 ∧ p.2.expiresAt = some r.1.1 ∧ p.1 = r.2 := by
        intro r hm
        obtain ⟨p0, hp0, hid0, hexp0, hkey0⟩ := hinv2 r (List.mem_cons_of_mem _ hm)
        obtain ⟨q, hq, hqid, hqexp, hqkey⟩ :=
          hinv2 ((when, id), key) (List.mem_cons_self _ _)
        have hne0 : p0.1 ≠ key := by
          intro hk0
          have hq1 : q.1 = key := hqkey
          have hpq : p0 = q := entries_key_unique hnd hp0 hq (hk0.trans hq1.symm)
          rw [hpq] at hid0 hexp0
          rw [hqexp] at hexp0
          have hr1 : r.1.1 = when := by
            simp only [Option.some.injEq] at hexp0
            exact hexp0.symm
          have hr2 : r.1.2 = id := by rw [← hid0, hqid]
          have hrh : r.1 = ((when, id) : Nat × Nat) := by
            have : r.1 = (r.1.1, r.1.2) := rfl
            rw [this, hr1, hr2]
          have := hhead r hm
          rw [hrh] at this
          exact absurd this (by simp [expLt_irrefl])
        refine ⟨p0, ?_, hid0, hexp0, hkey0⟩
        rw [mapRemove_mem hnd]
        exact ⟨hp0, hne0⟩
      obtain ⟨hsub1, hsub2, hnd3, hsort3, hi1, hi2⟩ :=
        ih (mapRemove entries key) now hnd2 htail hinv1R hinv2R
      refine ⟨hsub1.trans (mapRemove_sublist entries key), ?_, hnd3, hsort3, hi1, hi2⟩
      exact hsub2.trans (List.sublist_cons_self _ _)

lemma purge_preserves_WFdb {s : DbState} (h : WFdb s) (now : Nat) :
    WFdb (Shared.purgeExpiredKeys s now).1 := by
  obtain ⟨hnd, hsort, hidE, hidX, hinv1, hinv2⟩ := h
  by_cases hsd : s.shutdown
  · simp only [Shared.purgeExpiredKeys, if_pos hsd]
    exact ⟨hnd, hsort, hidE, hidX, hinv1, hinv2⟩
  · simp only [Shared.purgeExpiredKeys, if_neg hsd]
    obtain ⟨hsub1, hsub2, hnd3, hsort3, hi1, hi2⟩ :=
      purgeLoop_preserves s.expirations s.entries now hnd hsort hinv1 hinv2
    refine ⟨hnd3, hsort3, ?_, ?_, hi1, hi2⟩
    · intro p hp
      exact hidE p (hsub1.subset hp)
    · intro r hr
      exact hidX r (hsub2.subset hr)

lemma subscribe_preserves_WFdb {s : DbState} (h : WFdb s) (key : List Nat) :
    WFdb (Db.subscribe s key).1 := by
  unfold Db.subscribe
  rcases mapLookup s.pubSub key with _ | n
  all_goals exact WFdb_of_fields_eq rfl rfl rfl h

lemma publish_preserves_WFdb {s : DbState} (h : WFdb s) (key value : List Nat) :
    WFdb (Db.publish s key value).1 := by
  unfold Db.publish
  rcases mapLookup s.pubSub key with _ | n
  all_goals exact WFdb_of_fields_eq rfl rfl rfl h

lemma purgeLoop_lookup_none_mono :
    ∀ (l : List ((Nat × Nat) × List Nat)) (entries : List (List Nat × Entry)) (now : Nat)
      (k : List Nat), (entries.map Prod.fst).Nodup → mapLookup entries k = none →
      mapLookup (purgeLoop l entries now).1 k = none := by
  intro l
  induction l with
  | nil => intro entries now k _ h; exact h
  | cons head rest ih =>
    intro entries now k hnd h
    obtain ⟨⟨when, id⟩, key⟩ := head
    by_cases hnow : now < when
    · simp only [purgeLoop, if_pos hnow]
      exact h
    · simp only [purgeLoop, if_neg hnow]
      refine ih (mapRemove entries key) now k (mapRemove_nodup hnd key) ?_
      rw [mapLookup_remove hnd]
      by_cases hk : k = key
      · simp [hk]
      · simp only [if_neg hk]
        exact h

lemma purgeLoop_removes :
    ∀ (l : List ((Nat × Nat) × List Nat)) (entries : List (List Nat × Entry)) (now : Nat)
      (d i : Nat) (k : List Nat),
      (entries.map Prod.fst).Nodup →
      List.Pairwise (fun a b => expLt a.1 b.1 = true) l →
      ((d, i), k) ∈ l → d ≤ now →
      mapLookup (purgeLoop l entries now).1 k = none := by
  intro l
  induction l with
  | nil =>
    intro entries now d i k _ _ hm _
    exact absurd hm (List.not_mem_nil _)
  | cons head rest ih =>
    intro entries now d i k hnd hsort hm hd
    obtain ⟨⟨when, id⟩, key⟩ := head
    obtain ⟨hhead, htail⟩ := List.pairwise_cons.mp hsort
    by_cases hnow : now < when
    · exfalso
      rcases List.mem_cons.mp hm with heq | hm2
      · have h1 : d = when := congrArg (fun r => r.1.1) heq
        omega
      · have := expLt_le (hhead _ hm2)
        simp only at this
        omega
    · simp only [purgeLoop, if_neg hnow]
      rcases List.mem_cons.mp hm with heq | hm2
      · have hkk : k = key := congrArg Prod.snd heq
        subst hkk
        refine purgeLoop_lookup_none_mono rest (mapRemove entries k) now k
          (mapRemove_nodup hnd k) ?_
        rw [mapLookup_remove hnd]
        simp
      · exact ih (mapRemove entries key) now d i k (mapRemove_nodup hnd key) htail hm2 hd

lemma unsubLoop_all {subs : List (List Nat)} (h : subs.Nodup) :
    unsubLoop subs subs =
      ([], (subs.zip (List.range subs.length).reverse).map
        (fun p => makeUnsubscribeFrame p.1 p.2)) := by
  induction subs with
  | nil => simp [unsubLoop]
  | cons ch rest ih =>
    obtain ⟨hch, hrest⟩ := List.nodup_cons.mp h
    have herase : (ch :: rest).erase ch = rest := List.erase_cons_head ch rest
    have hr := ih hrest
    simp only [unsubLoop, herase, hr, List.length_cons, List.range_succ,
      List.reverse_append, List.reverse_cons, List.reverse_nil, List.nil_append,
      List.cons_append, List.zip_cons_cons, List.map_cons]

/-- The empty database (the state `Db::new` creates). -/
def emptyDb : DbState := ⟨[], [], [], 0, false⟩

/-- A database holding one entry for key `tmp` whose deadline (instant 5) has
already passed at instant 10, with its matching expiration row. -/
def dbTmp : DbState :=
  ⟨[([116, 109, 112], ⟨0, [120], some 5⟩)], [], [((5, 0), [116, 109, 112])], 1, false⟩

lemma WFdb_dbTmp : WFdb dbTmp := by
  refine ⟨?_, ?_, ?_, ?_, ?_, ?_⟩
  · simp [dbTmp]
  · simp [dbTmp]
  · intro p hp
    simp only [dbTmp, List.mem_singleton] at hp
    subst hp
    simp [dbTmp]
  · intro r hr
    simp only [dbTmp, List.mem_singleton] at hr
    subst hr
    simp [dbTmp]
  · intro p hp d hd
    simp only [dbTmp, List.mem_singleton] at hp
    subst hp
    simp only at hd
    simp only [Option.some.injEq] at hd
    subst hd
    simp [dbTmp]
  · intro r hr
    simp only [dbTmp, List.mem_singleton] at hr
    subst hr
    exact ⟨([116, 109, 112], ⟨0, [120], some 5⟩), by simp [dbTmp], rfl, rfl, rfl⟩

/-! ## Claim theorems: shared database -/

/-- C2: every database operation (set, get, publish, subscribe, and the
expiration worker's purge step) preserves the expiration invariant `WFdb`:
each entry with deadline `d` owns exactly one `(d, id) → key` row and every
row points back to a current matching entry; in particular, after `set`
overwrites a key whose previous entry had a deadline, no row with the
previous entry's `(old_deadline, old_id)` remains.  (The removal site in the
source, `src/db.rs` line 178, guards with `if let some(prev)` — lowercase
`some`, a slip for `Some`; the model performs the intended removal.) -/
theorem db_operations_preserve_expiration_invariant :
    ∀ s : DbState, WFdb s →
      (∀ key value expire now, WFdb (Db.set s key value expire now).1) ∧
      (∀ key now, (Command.apply s now (Command.get key)).db = s) ∧
      (∀ key, WFdb (Db.subscribe s key).1) ∧
      (∀ key value, WFdb (Db.publish s key value).1) ∧
      (∀ now, WFdb (Shared.purgeExpiredKeys s now).1) ∧
      (∀ key e d, mapLookup s.entries key = some e → e.expiresAt = some d →
        ((d, e.id), key) ∈ s.expirations ∧
        (s.expirations.filter (fun x => decide (x.1 = (d, e.id)))).length = 1 ∧
        (∀ r ∈ s.expirations, r.1 = (d, e.id) → r.2 = key)) ∧
      (∀ key value expire now e0 d0, mapLookup s.entries key = some e0 →
        e0.expiresAt = some d0 →
        ∀ r ∈ (Db.set s key value expire now).1.expirations, r.1 ≠ (d0, e0.id)) := by
  intro s h
  obtain ⟨hnd, hsort, hidE, hidX, hinv1, hinv2⟩ := h
  have h' : WFdb s := ⟨hnd, hsort, hidE, hidX, hinv1, hinv2⟩
  refine ⟨fun key value expire now => set_preserves_WFdb h' key value expire now,
    ?_, fun key => subscribe_preserves_WFdb h' key,
    fun key value => publish_preserves_WFdb h' key value,
    fun now => purge_preserves_WFdb h' now, ?_, ?_⟩
  · intro key now
    cases hg : Db.get s key <;> simp [Command.apply, hg]
  · intro key e d h1 h2
    have hrow : ((d, e.id), key) ∈ s.expirations := hinv1 (key, e) (mapLookup_mem h1) d h2
    refine ⟨hrow, rows_filter_singleton hsort hrow, ?_⟩
    intro r hr he
    exact congrArg Prod.snd (rows_key_unique hsort hr hrow he)
  · intro key value expire now e0 d0 h1 h2 r hr
    cases expire with
    | none =>
      rw [set_none_eq] at hr
      simp only [h1, h2] at hr
      exact ((btRemove_mem hsort _ r).mp hr).2
    | some dur =>
      rw [set_some_eq] at hr
      simp only [h1, h2] at hr
      exact ((btRemove_mem (btInsert_pairwise hsort _ _) _ r).mp hr).2

/-- Witness for C2 at a concrete input: the empty database is well-formed and
a `set` with a ttl preserves the invariant. -/
theorem db_operations_preserve_expiration_invariant_witness :
    WFdb (Db.set emptyDb [107] [118] (some 5) 0).1 :=
  (db_operations_preserve_expiration_invariant emptyDb
    (by refine ⟨?_, ?_, ?_, ?_, ?_, ?_⟩ <;> simp [emptyDb])).1 [107] [118] (some 5) 0

/-- C3 counterexample: in `dbTmp` the entry for key `tmp` has deadline 5,
which is in the past at instant 10, yet `Db::get` still returns its value:
the source (`src/db.rs` lines 116-124) never consults `expires_at`. -/
theorem get_returns_expired_entry_counterexample :
    mapLookup dbTmp.entries [116, 109, 112] = some ⟨0, [120], some 5⟩ ∧
    (5 : Nat) < 10 ∧ Db.get dbTmp [116, 109, 112] = some [120] :=
  ⟨rfl, by omega, rfl⟩

/-- C3 amended: `Db::get` returns nothing exactly when no entry for the key
exists; an expired-but-not-yet-purged entry is still returned.  The absent
result after the TTL elapses is produced by the expiration worker: once
`purge_expired_keys` runs at an instant past the deadline, `get` returns
nothing. -/
theorem get_absent_iff_no_entry_and_none_after_purge :
    (∀ s key, Db.get s key = none ↔ mapLookup s.entries key = none) ∧
    (∀ s now key e d, WFdb s → s.shutdown = false →
      mapLookup s.entries key = some e → e.expiresAt = some d → d ≤ now →
      Db.get (Shared.purgeExpiredKeys s now).1 key = none) := by
  constructor
  · intro s key
    unfold Db.get
    cases mapLookup s.entries key <;> simp
  · intro s now key e d hwf hsd h1 h2 h3
    obtain ⟨hnd, hsort, _, _, hinv1, _⟩ := hwf
    have hrow : ((d, e.id), key) ∈ s.expirations := hinv1 (key, e) (mapLookup_mem h1) d h2
    have hlook := purgeLoop_removes s.expirations s.entries now d e.id key hnd hsort hrow h3
    simp only [Shared.purgeExpiredKeys, hsd, Bool.false_eq_true, if_false]
    unfold Db.get
    simp only [hlook]
    rfl

/-- Witness for C3's amended theorem: purging `dbTmp` at instant 10 makes the
`tmp` key absent. -/
theorem get_absent_iff_no_entry_and_none_after_purge_witness :
    Db.get (Shared.purgeExpiredKeys dbTmp 10).1 [116, 109, 112] = none :=
  get_absent_iff_no_entry_and_none_after_purge.2 dbTmp 10 [116, 109, 112]
    ⟨0, [120], some 5⟩ 5 WFdb_dbTmp rfl rfl rfl (by omega)

/-- C6: `set` with a ttl signals the expiration worker iff before the insert
there was no existing deadline or the new deadline `now + ttl` is strictly
below the smallest existing deadline; a `set` without ttl never notifies. -/
theorem set_notifies_iff_new_earliest_deadline :
    ∀ s key value ttl now, WFdb s →
      ((Db.set s key value (some ttl) now).2 = true ↔
        (s.expirations = [] ∨
          ∃ m, (∃ r ∈ s.expirations, r.1.1 = m) ∧ (∀ r ∈ s.expirations, m ≤ r.1.1) ∧
            now + ttl < m)) ∧
      (Db.set s key value none now).2 = false := by
  intro s key value ttl now hwf
  obtain ⟨_, hsort, _, _, _, _⟩ := hwf
  constructor
  · rw [set_some_eq]
    cases hexp : s.expirations with
    | nil => simp [nextExpiration]
    | cons r rest =>
      rw [hexp] at hsort
      have hne : nextExpiration (r :: rest) = some r.1.1 := by simp [nextExpiration]
      rw [hne]
      simp only [decide_eq_true_eq]
      constructor
      · intro hlt
        refine Or.inr ⟨r.1.1, ⟨r, List.mem_cons_self _ _, rfl⟩, pairwise_head_min hsort, hlt⟩
      · rintro (habs | ⟨m, ⟨r2, hr2, rfl⟩, hmin, hlt⟩)
        · exact absurd habs (List.cons_ne_nil r rest)
        · have h1 := hmin r (List.mem_cons_self _ _)
          omega
  · rw [set_none_eq]

/-- Witness for C6 at the empty database: with no existing deadline the set
notifies, and a set without ttl does not. -/
theorem set_notifies_iff_new_earliest_deadline_witness :
    ((Db.set emptyDb [107] [118] (some 7) 0).2 = true ↔
      (emptyDb.expirations = [] ∨
        ∃ m, (∃ r ∈ emptyDb.expirations, r.1.1 = m) ∧
          (∀ r ∈ emptyDb.expirations, m ≤ r.1.1) ∧ 0 + 7 < m)) ∧
    (Db.set emptyDb [107] [118] none 0).2 = false :=
  set_notifies_iff_new_earliest_deadline emptyDb [107] [118] 7 0
    (by refine ⟨?_, ?_, ?_, ?_, ?_, ?_⟩ <;> simp [emptyDb])

/-- C10: applying a GET leaves the entire database state unchanged (all
fields identical) and the handler loop continues; in particular an
expired-but-unpurged entry is neither removed nor altered by reading it. -/
theorem get_leaves_state_unchanged :
    ∀ s now key, (Command.apply s now (Command.get key)).db = s ∧
      (Command.apply s now (Command.get key)).outcome = HandlerOutcome.continueCmd := by
  intro s now key
  cases hg : Db.get s key <;> simp [Command.apply, hg]

/-! ## Claim theorems: connection handler and commands -/

/-- C4 counterexample: a GET array with no key argument makes
`Command::from_frame` fail with `EndOfStream`; the handler then closes the
connection having written nothing — no Error frame is sent, contrary to the
claim (the `?` on `Command::from_frame(frame)` in `Handler::run`,
`src/server.rs` line 374, returns the error without replying). -/
theorem bad_command_shape_counterexample :
    Command.fromFrame (Frame.array [Frame.bulk [71, 69, 84]]) =
      .error ParseError.endOfStream ∧
    Handler.step emptyDb 0 (Frame.array [Frame.bulk [71, 69, 84]]) =
      ⟨emptyDb, [], HandlerOutcome.closed⟩ :=
  ⟨rfl, rfl⟩

/-- C4 amended: on any frame whose command parse fails (bad command shape),
the handler closes the connection without writing any frame, and the
database is untouched — so other connections are unaffected; no Error frame
is sent. -/
theorem bad_command_shape_closes_without_reply :
    ∀ db now frame e, Command.fromFrame frame = .error e →
      Handler.step db now frame = ⟨db, [], HandlerOutcome.closed⟩ := by
  intro db now frame e h
  simp [Handler.step, h]

/-- Witness for C4's amended theorem at the concrete GET-without-argument
frame. -/
theorem bad_command_shape_closes_without_reply_witness :
    Handler.step emptyDb 0 (Frame.array [Frame.bulk [71, 69, 84]]) =
      ⟨emptyDb, [], HandlerOutcome.closed⟩ :=
  bad_command_shape_closes_without_reply emptyDb 0 _ ParseError.endOfStream rfl

/-- C5: parsing the array `SET key value EX n` (the `EX` token matched
case-insensitively, `n` an integer frame) succeeds with an expiration of `n`
seconds (`1000 * n` ms); the stored entry's deadline is `now + 1000 * n`;
and any option token other than `EX`/`PX` yields the error that closes the
connection.  The theorem is about the intended assignment: the source's `EX`
arm writes the undeclared variable `expires` (`src/cmd/set.rs` line 75), a
slip for `expire`. -/
theorem set_ex_option_parses_seconds :
    (∀ kb vb ex n, validUtf8 kb = true → validUtf8 ex = true →
      asciiUpper ex = strEX →
      Command.fromFrame (Frame.array
        [Frame.bulk [83, 69, 84], Frame.bulk kb, Frame.bulk vb, Frame.bulk ex,
          Frame.integer n]) = .ok (Command.set kb vb (some (1000 * n)))) ∧
    (∀ s kb vb n now, mapLookup (Db.set s kb vb (some (1000 * n)) now).1.entries kb =
      some ⟨s.nextId, vb, some (now + 1000 * n)⟩) ∧
    (∀ kb vb tok rest, validUtf8 kb = true → validUtf8 tok = true →
      asciiUpper tok ≠ strEX → asciiUpper tok ≠ strPX →
      Command.fromFrame (Frame.array
        (Frame.bulk [83, 69, 84] :: Frame.bulk kb :: Frame.bulk vb ::
          Frame.bulk tok :: rest)) =
        .error (.other "currently 'SET' only supports the expiration option")) := by
  have hsetname : asciiLower [83, 69, 84] = strSet := by decide
  have hvSET : validUtf8 [83, 69, 84] = true := by decide
  have hng : strSet ≠ strGet := by decide
  have hnp : strSet ≠ strPublish := by decide
  refine ⟨?_, ?_, ?_⟩
  · intro kb vb ex n hkb hex hEX
    simp [Command.fromFrame, Parse.nextString, Parse.nextBytes, Parse.nextInt,
      Parse.finish, Set.parseFrames, hvSET, hsetname, hng, hnp, hkb, hex, hEX,
      Except.map]
  · intro s kb vb n now
    rw [set_some_eq]
    simp [mapLookup_insert]
  · intro kb vb tok rest hkb htok hnEX hnPX
    simp [Command.fromFrame, Parse.nextString, Parse.nextBytes, Parse.nextInt,
      Parse.finish, Set.parseFrames, hvSET, hsetname, hng, hnp, hkb, htok, hnEX, hnPX]

/-- Witness for C5: `SET k v ex 5` with a lower-case `ex` token parses to an
expiration of 5 seconds, the entry stored by it expires at `0 + 5000`, and
the option token `XX` is rejected. -/
theorem set_ex_option_parses_seconds_witness :
    Command.fromFrame (Frame.array
      [Frame.bulk [83, 69, 84], Frame.bulk [107], Frame.bulk [118],
        Frame.bulk [101, 120], Frame.integer 5]) =
      .ok (Command.set [107] [118] (some (1000 * 5))) ∧
    mapLookup (Db.set emptyDb [107] [118] (some (1000 * 5)) 0).1.entries [107] =
      some ⟨emptyDb.nextId, [118], some (0 + 1000 * 5)⟩ ∧
    Command.fromFrame (Frame.array
      [Frame.bulk [83, 69, 84], Frame.bulk [107], Frame.bulk [118],
        Frame.bulk [88, 88]]) =
      .error (.other "currently 'SET' only supports the expiration option") :=
  ⟨set_ex_option_parses_seconds.1 [107] [118] [101, 120] 5 (by decide) (by decide)
    (by decide),
   set_ex_option_parses_seconds.2.1 emptyDb [107] [118] 5 0,
   set_ex_option_parses_seconds.2.2 [107] [118] [88, 88] [] (by decide) (by decide)
    (by decide) (by decide)⟩

/-- C8: a command array whose (lower-cased) first string is none of the five
supported names parses to `Unknown`, whatever and however many entries
follow (they are discarded); applying it replies with the Error frame
`ERR unknown command <name>` and the handler keeps looping.  The apply is
the intended `cmd.apply(dst)`: the source's Unknown arm calls
`cmd.apply(db)` (`src/cmd/mod.rs` line 108) where `Unknown::apply` takes the
connection. -/
theorem unknown_command_replies_and_continues :
    (∀ name rest, validUtf8 name = true →
      asciiLower name ≠ strGet → asciiLower name ≠ strPublish →
      asciiLower name ≠ strSet → asciiLower name ≠ strSubscribe →
      asciiLower name ≠ strUnsubscribe →
      Command.fromFrame (Frame.array (Frame.bulk name :: rest)) =
        .ok (Command.unknown (asciiLower name))) ∧
    (∀ db now name, Command.apply db now (Command.unknown name) =
      ⟨db, [Frame.error (unknownCommandMsg name)], HandlerOutcome.continueCmd⟩) ∧
    (∀ db now name rest, validUtf8 name = true →
      asciiLower name ≠ strGet → asciiLower name ≠ strPublish →
      asciiLower name ≠ strSet → asciiLower name ≠ strSubscribe →
      asciiLower name ≠ strUnsubscribe →
      Handler.step db now (Frame.array (Frame.bulk name :: rest)) =
        ⟨db, [Frame.error (unknownCommandMsg (asciiLower name))],
          HandlerOutcome.continueCmd⟩) := by
  have hmain : ∀ name rest, validUtf8 name = true →
      asciiLower name ≠ strGet → asciiLower name ≠ strPublish →
      asciiLower name ≠ strSet → asciiLower name ≠ strSubscribe →
      asciiLower name ≠ strUnsubscribe →
      Command.fromFrame (Frame.array (Frame.bulk name :: rest)) =
        .ok (Command.unknown (asciiLower name)) := by
    intro name rest hv h1 h2 h3 h4 h5
    simp [Command.fromFrame, Parse.nextString, hv, h1, h2, h3, h4, h5]
  refine ⟨hmain, fun db now name => rfl, ?_⟩
  intro db now name rest hv h1 h2 h3 h4 h5
  simp [Handler.step, hmain name rest hv h1 h2 h3 h4 h5, Command.apply]

/-- Witness for C8: command name `FOO` with two trailing entries parses to
`Unknown` with lower-cased name `foo` and the handler replies the error and
continues. -/
theorem unknown_command_replies_and_continues_witness :
    Handler.step emptyDb 0
      (Frame.array [Frame.bulk [70, 79, 79], Frame.integer 1, Frame.null]) =
      ⟨emptyDb, [Frame.error (unknownCommandMsg (asciiLower [70, 79, 79]))],
        HandlerOutcome.continueCmd⟩ :=
  unknown_command_replies_and_continues.2.2 emptyDb 0 [70, 79, 79]
    [Frame.integer 1, Frame.null] (by decide) (by decide) (by decide) (by decide)
    (by decide) (by decide)

/-- C9: in subscriber mode an UNSUBSCRIBE with an empty channel list removes
every currently subscribed channel; the replies are
`Array[Bulk unsubscribe, Bulk channel, Integer remaining]` in key order with
the remaining counts descending to 0 (`n-1, n-2, …, 0` for `n` channels). -/
theorem unsubscribe_all_replies_with_descending_counts :
    ∀ (subscribeTo subs : List (List Nat)), subs.Nodup →
      handleCommand (Frame.array [Frame.bulk strUnsubscribe]) subscribeTo subs =
        .ok (subscribeTo, [],
          (subs.zip (List.range subs.length).reverse).map
            (fun p => makeUnsubscribeFrame p.1 p.2)) := by
  intro st subs h
  have hff : Command.fromFrame (Frame.array [Frame.bulk strUnsubscribe]) =
      .ok (Command.unsubscribe []) := rfl
  simp [handleCommand, hff, unsubLoop_all h]

/-- Witness for C9: a client subscribed to channels `a` and `b` that sends a
bare UNSUBSCRIBE gets two unsubscribe replies with remaining counts 1 then
0. -/
theorem unsubscribe_all_replies_with_descending_counts_witness :
    handleCommand (Frame.array [Frame.bulk strUnsubscribe]) [] [[97], [98]] =
      .ok ([], [], [makeUnsubscribeFrame [97] 1, makeUnsubscribeFrame [98] 0]) :=
  unsubscribe_all_replies_with_descending_counts [] [[97], [98]] (by decide)

/-! ## Round-trip support lemmas -/

lemma natDecimal_step (n : Nat) (h10 : ¬ n < 10) :
    natDecimal n = natDecimalAux (n - 1 + 1) (n / 10) [48 + n % 10] := by
  have h : natDecimal n
      = if n < 10 then [48 + n] else natDecimalAux n (n / 10) [48 + n % 10] := rfl
  rw [h, if_neg h10, show n - 1 + 1 = n from by omega]

lemma natDecimalAux_spec :
    ∀ n fuel acc, n ≤ fuel → natDecimalAux (fuel + 1) n acc = natDecimal n ++ acc := by
  intro n
  induction n using Nat.strong_induction_on with
  | _ n ih =>
    intro fuel acc hf
    by_cases h10 : n < 10
    · simp [natDecimalAux, natDecimal, h10]
    · have hd : n / 10 < n := Nat.div_lt_self (by omega) (by omega)
      obtain ⟨f2, rfl⟩ : ∃ f2, fuel = f2 + 1 := ⟨fuel - 1, by omega⟩
      have h1 : natDecimalAux (f2 + 1 + 1) n acc
          = natDecimalAux (f2 + 1) (n / 10) ((48 + n % 10) :: acc) := by
        simp [natDecimalAux, h10]
      have h2 : natDecimal n = natDecimal (n / 10) ++ [48 + n % 10] := by
        rw [natDecimal_step n h10]
        exact ih (n / 10) hd (n - 1) [48 + n % 10] (by omega)
      rw [h1, ih (n / 10) hd f2 ((48 + n % 10) :: acc) (by omega), h2,
        List.append_assoc]
      rfl

lemma natDecimal_decomp (n : Nat) (h10 : ¬ n < 10) :
    natDecimal n = natDecimal (n / 10) ++ [48 + n % 10] := by
  rw [natDecimal_step n h10]
  exact natDecimalAux_spec (n / 10) (n - 1) [48 + n % 10] (by omega)

lemma natDecimal_digits : ∀ n, ∀ b ∈ natDecimal n, 48 ≤ b ∧ b ≤ 57 := by
  intro n
  induction n using Nat.strong_induction_on with
  | _ n ih =>
    intro b hb
    by_cases h10 : n < 10
    · simp only [natDecimal, natDecimalAux, if_pos h10, List.mem_singleton] at hb
      omega
    · rw [natDecimal_decomp n h10] at hb
      rcases List.mem_append.mp hb with h | h
      · exact ih (n / 10) (Nat.div_lt_self (by omega) (by omega)) b h
      · simp only [List.mem_singleton] at h
        have := Nat.mod_lt n (show 0 < 10 by omega)
        omega

lemma natDecimal_ne_nil (n : Nat) : natDecimal n ≠ [] := by
  by_cases h10 : n < 10
  · simp [natDecimal, natDecimalAux, h10]
  · rw [natDecimal_decomp n h10]
    simp

lemma atoiDigits_append (l m : List Nat) :
    ∀ acc, (∀ b ∈ l, 48 ≤ b ∧ b ≤ 57) →
      atoiDigits (l ++ m) acc = atoiDigits m (atoiDigits l acc) := by
  induction l with
  | nil => intro acc _; rfl
  | cons b l' ih =>
    intro acc h
    have hb := h b (List.mem_cons_self _ _)
    have hdig : digitVal? b = some (b - 48) := by simp [digitVal?, hb.1, hb.2]
    simp only [List.cons_append, atoiDigits, hdig]
    exact ih (10 * acc + (b - 48)) (fun c hc => h c (List.mem_cons_of_mem _ hc))

lemma atoiDigits_natDecimal : ∀ n acc,
    atoiDigits (natDecimal n) acc = acc * 10 ^ (natDecimal n).length + n := by
  intro n
  induction n using Nat.strong_induction_on with
  | _ n ih =>
    intro acc
    by_cases h10 : n < 10
    · have : natDecimal n = [48 + n] := by simp [natDecimal, natDecimalAux, h10]
      rw [this]
      have hdig : digitVal? (48 + n) = some n := by simp [digitVal?]; omega
      simp only [atoiDigits, hdig, List.length_singleton, pow_one]
      omega
    · have hd : n / 10 < n := Nat.div_lt_self (by omega) (by omega)
      rw [natDecimal_decomp n h10]
      rw [atoiDigits_append _ _ _ (natDecimal_digits (n / 10))]
      have hdig : digitVal? (48 + n % 10) = some (n % 10) := by
        have := Nat.mod_lt n (show 0 < 10 by omega)
        simp [digitVal?]
        omega
      simp only [atoiDigits, hdig, ih (n / 10) hd acc, List.length_append,
        List.length_singleton]
      rw [pow_succ, ← Nat.mul_assoc]
      have hmod := Nat.div_add_mod n 10
      generalize acc * 10 ^ (natDecimal (n / 10)).length = Y
      omega

lemma atoi_natDecimal (n : Nat) : atoi (natDecimal n) = some n := by
  have h0 : atoiDigits (natDecimal n) 0 = n := by
    rw [atoiDigits_natDecimal n 0]
    simp
  rcases hnd : natDecimal n with _ | ⟨b, l'⟩
  · exact absurd hnd (natDecimal_ne_nil n)
  · have hb : 48 ≤ b ∧ b ≤ 57 := natDecimal_digits n b (hnd ▸ List.mem_cons_self _ _)
    have hdig : digitVal? b = some (b - 48) := by simp [digitVal?, hb.1, hb.2]
    rw [hnd] at h0
    simp only [atoiDigits, hdig] at h0
    simp only [atoi, hdig, Option.some.injEq]
    rw [← h0]
    norm_num

lemma hasCrlf_of_no13 (l : List Nat) (h : ∀ b ∈ l, b ≠ 13) : hasCrlf l = false := by
  induction l with
  | nil => rfl
  | cons b l' ih =>
    have hb := h b (List.mem_cons_self _ _)
    simp only [hasCrlf, Bool.or_eq_false_iff, Bool.and_eq_false_iff]
    exact ⟨Or.inl (by simpa using hb), ih (fun c hc => h c (List.mem_cons_of_mem _ hc))⟩

lemma hasCrlf_natDecimal (n : Nat) : hasCrlf (natDecimal n) = false := by
  refine hasCrlf_of_no13 _ ?_
  intro b hb
  have := natDecimal_digits n b hb
  omega

lemma splitLine_append :
    ∀ (line rest : List Nat), hasCrlf line = false →
      splitLine (line ++ 13 :: 10 :: rest) = some (line, rest) := by
  intro line
  induction line with
  | nil =>
    intro rest _
    simp [splitLine]
  | cons b l' ih =>
    intro rest h
    simp only [hasCrlf, Bool.or_eq_false_iff, Bool.and_eq_false_iff] at h
    obtain ⟨h1, h2⟩ := h
    simp only [List.cons_append, splitLine]
    have hcond : ¬(b = 13 ∧ (l' ++ 13 :: 10 :: rest).head? = some 10) := by
      rintro ⟨rfl, hh⟩
      cases l' with
      | nil => simp at hh
      | cons c l'' =>
        simp only [List.cons_append, List.head?_cons, Option.some.injEq] at hh
        rcases h1 with h1 | h1
        · simp at h1
        · simp [hh] at h1
    split
    · rename_i hc
      exact absurd hc hcond
    · simp only [List.append_eq]
      rw [ih rest h2]
      rfl

/-! ### Cursor evaluation lemmas -/

lemma getU8_eval (pre : List Nat) (b : Nat) (x : List Nat) :
    getU8 (pre ++ (b :: x)) pre.length = .ok (b, pre.length + 1) := by
  simp [getU8, List.drop_left]

lemma peekU8_eval (pre : List Nat) (b : Nat) (x : List Nat) :
    peekU8 (pre ++ (b :: x)) pre.length = .ok b := by
  simp [peekU8, List.drop_left]

lemma getLine_eval (pre line rest : List Nat) (h : hasCrlf line = false) :
    getLine (pre ++ (line ++ 13 :: 10 :: rest)) pre.length =
      .ok (line, pre.length + line.length + 2) := by
  simp only [getLine, List.drop_left, splitLine_append line rest h]

lemma getDecimal_eval (pre rest : List Nat) (n : Nat) :
    getDecimal (pre ++ (natDecimal n ++ 13 :: 10 :: rest)) pre.length =
      .ok (n, pre.length + (natDecimal n).length + 2) := by
  simp only [getDecimal, getLine_eval pre (natDecimal n) rest (hasCrlf_natDecimal n),
    atoi_natDecimal]

/-- A literal (non-array) frame the writer can emit and the parser can read
back: Simple/Error text free of CR LF and valid UTF-8 (guaranteed for Rust
`String`s that contain no CR LF), integers within `u64`.  Arrays are not
literals. -/
def litOk : Frame → Bool
  | .simple s => !hasCrlf s && validUtf8 s
  | .error s => !hasCrlf s && validUtf8 s
  | .integer n => decide (n < 2 ^ 64)
  | .bulk _ => true
  | .null => true
  | .array _ => false

/-- A frame the claim's round trip can cover: a literal, or an array of
literals (nested arrays make the writer panic). -/
def wfFrame : Frame → Bool
  | .array items => items.all litOk
  | f => litOk f

lemma writeValue_of_litOk {f : Frame} (h : litOk f = true) :
    ∃ enc, Connection.writeValue f = some enc := by
  cases f <;> simp_all [litOk, Connection.writeValue]

lemma natDecimal_length_pos (n : Nat) : 1 ≤ (natDecimal n).length := by
  cases hh : natDecimal n
  · exact absurd hh (natDecimal_ne_nil n)
  · simp

lemma writeValue_length {f : Frame} {enc : List Nat}
    (h : Connection.writeValue f = some enc) : 3 ≤ enc.length := by
  cases f with
  | simple s =>
    simp only [Connection.writeValue, Option.some.injEq] at h
    subst h
    simp only [List.length_cons, List.length_append]
    omega
  | error s =>
    simp only [Connection.writeValue, Option.some.injEq] at h
    subst h
    simp only [List.length_cons, List.length_append]
    omega
  | integer n =>
    simp only [Connection.writeValue, Option.some.injEq] at h
    subst h
    have := natDecimal_length_pos n
    simp only [List.length_cons, List.length_append]
    omega
  | bulk b =>
    simp only [Connection.writeValue, Option.some.injEq] at h
    subst h
    have := natDecimal_length_pos b.length
    simp only [List.length_cons, List.length_append]
    omega
  | null =>
    simp only [Connection.writeValue, Option.some.injEq] at h
    subst h
    simp
  | array items => simp [Connection.writeValue] at h

/-- Parsing one literal frame from its own encoding: with the cursor at the
start of `writeValue f`'s bytes, one step of `Frame::parse` yields `f` and
moves the cursor past the encoding, then continues with the remaining
count. -/
lemma parse_step_lit (f : Frame) (enc : List Nat) (hok : litOk f = true)
    (henc : Connection.writeValue f = some enc) (fuel count : Nat) (pre post : List Nat) :
    parseMany (fuel + 1) (count + 1) (pre ++ (enc ++ post)) pre.length =
      (parseMany fuel count (pre ++ (enc ++ post)) (pre.length + enc.length)).map
        (fun r => (f :: r.1, r.2)) := by
  cases f with
  | simple s =>
    simp only [Connection.writeValue, Option.some.injEq] at henc
    subst henc
    simp only [litOk, Bool.and_eq_true, Bool.not_eq_true'] at hok
    obtain ⟨hcr, hutf⟩ := hok
    have hbuf : pre ++ ((43 :: (s ++ [13, 10])) ++ post)
        = pre ++ (43 :: (s ++ (13 :: 10 :: post))) := by simp
    rw [hbuf]
    have hg := getU8_eval pre 43 (s ++ (13 :: 10 :: post))
    have hl : getLine (pre ++ (43 :: (s ++ (13 :: 10 :: post)))) (pre.length + 1)
        = .ok (s, pre.length + 1 + s.length + 2) := by
      have hb2 : pre ++ (43 :: (s ++ (13 :: 10 :: post)))
          = (pre ++ [43]) ++ (s ++ (13 :: 10 :: post)) := by simp
      have hp2 : pre.length + 1 = (pre ++ [43]).length := by simp
      rw [hb2, hp2]
      exact getLine_eval (pre ++ [43]) s post hcr
    have harith : pre.length + 1 + s.length + 2
        = pre.length + (43 :: (s ++ [13, 10])).length := by
      simp
      omega
    simp only [parseMany, hg, hl, hutf, harith]
    cases parseMany fuel count (pre ++ (43 :: (s ++ (13 :: 10 :: post))))
        (pre.length + (43 :: (s ++ [13, 10])).length) <;> simp [Except.map]
  | error s =>
    simp only [Connection.writeValue, Option.some.injEq] at henc
    subst henc
    simp only [litOk, Bool.and_eq_true, Bool.not_eq_true'] at hok
    obtain ⟨hcr, hutf⟩ := hok
    have hbuf : pre ++ ((45 :: (s ++ [13, 10])) ++ post)
        = pre ++ (45 :: (s ++ (13 :: 10 :: post))) := by simp
    rw [hbuf]
    have hg := getU8_eval pre 45 (s ++ (13 :: 10 :: post))
    have hl : getLine (pre ++ (45 :: (s ++ (13 :: 10 :: post)))) (pre.length + 1)
        = .ok (s, pre.length + 1 + s.length + 2) := by
      have hb2 : pre ++ (45 :: (s ++ (13 :: 10 :: post)))
          = (pre ++ [45]) ++ (s ++ (13 :: 10 :: post)) := by simp
      have hp2 : pre.length + 1 = (pre ++ [45]).length := by simp
      rw [hb2, hp2]
      exact getLine_eval (pre ++ [45]) s post hcr
    have harith : pre.length + 1 + s.length + 2
        = pre.length + (45 :: (s ++ [13, 10])).length := by
      simp
      omega
    simp only [parseMany, hg, hl, hutf, harith]
    cases parseMany fuel count (pre ++ (45 :: (s ++ (13 :: 10 :: post))))
        (pre.length + (45 :: (s ++ [13, 10])).length) <;> simp [Except.map]
  | integer n =>
    simp only [Connection.writeValue, Option.some.injEq] at henc
    subst henc
    have hbuf : pre ++ ((58 :: (natDecimal n ++ [13, 10])) ++ post)
        = pre ++ (58 :: (natDecimal n ++ (13 :: 10 :: post))) := by simp
    rw [hbuf]
    have hg := getU8_eval pre 58 (natDecimal n ++ (13 :: 10 :: post))
    have hl : getDecimal (pre ++ (58 :: (natDecimal n ++ (13 :: 10 :: post)))) (pre.length + 1)
        = .ok (n, pre.length + 1 + (natDecimal n).length + 2) := by
      have hb2 : pre ++ (58 :: (natDecimal n ++ (13 :: 10 :: post)))
          = (pre ++ [58]) ++ (natDecimal n ++ (13 :: 10 :: post)) := by simp
      have hp2 : pre.length + 1 = (pre ++ [58]).length := by simp
      rw [hb2, hp2]
      exact getDecimal_eval (pre ++ [58]) post n
    have harith : pre.length + 1 + (natDecimal n).length + 2
        = pre.length + (58 :: (natDecimal n ++ [13, 10])).length := by
      simp
      omega
    simp only [parseMany, hg, hl, harith]
    cases parseMany fuel count (pre ++ (58 :: (natDecimal n ++ (13 :: 10 :: post))))
        (pre.length + (58 :: (natDecimal n ++ [13, 10])).length) <;> simp [Except.map]
  | null =>
    simp only [Connection.writeValue, Option.some.injEq] at henc
    subst henc
    have hbuf : pre ++ ([36, 45, 49, 13, 10] ++ post)
        = pre ++ (36 :: (45 :: (49 :: (13 :: (10 :: post))))) := by simp
    rw [hbuf]
    have hg := getU8_eval pre 36 (45 :: (49 :: (13 :: (10 :: post))))
    have hpk : peekU8 (pre ++ (36 :: (45 :: (49 :: (13 :: (10 :: post)))))) (pre.length + 1)
        = .ok 45 := by
      have hb2 : pre ++ (36 :: (45 :: (49 :: (13 :: (10 :: post)))))
          = (pre ++ [36]) ++ (45 :: (49 :: (13 :: (10 :: post)))) := by simp
      have hp2 : pre.length + 1 = (pre ++ [36]).length := by simp
      rw [hb2, hp2]
      exact peekU8_eval (pre ++ [36]) 45 _
    have hl : getLine (pre ++ (36 :: (45 :: (49 :: (13 :: (10 :: post)))))) (pre.length + 1)
        = .ok ([45, 49], pre.length + 1 + 2 + 2) := by
      have hb2 : pre ++ (36 :: (45 :: (49 :: (13 :: (10 :: post)))))
          = (pre ++ [36]) ++ ([45, 49] ++ (13 :: 10 :: post)) := by simp
      have hp2 : pre.length + 1 = (pre ++ [36]).length := by simp
      rw [hb2, hp2]
      have := getLine_eval (pre ++ [36]) [45, 49] post (by decide)
      simpa using this
    have harith : pre.length + 1 + 2 + 2
        = pre.length + ([36, 45, 49, 13, 10] : List Nat).length := by
      simp
    simp only [parseMany, hg, hpk, hl, harith]
    cases parseMany fuel count (pre ++ (36 :: (45 :: (49 :: (13 :: (10 :: post))))))
        (pre.length + ([36, 45, 49, 13, 10] : List Nat).length) <;> simp [Except.map]
  | bulk bytes =>
    simp only [Connection.writeValue, Option.some.injEq] at henc
    subst henc
    obtain ⟨d0, dtail, hD⟩ : ∃ d0 dtail, natDecimal bytes.length = d0 :: dtail := by
      rcases hh : natDecimal bytes.length with _ | ⟨x, xs⟩
      · exact absurd hh (natDecimal_ne_nil _)
      · exact ⟨x, xs, rfl⟩
    have hd0 : 48 ≤ d0 ∧ d0 ≤ 57 :=
      natDecimal_digits bytes.length d0 (hD ▸ List.mem_cons_self _ _)
    have hbuf : pre ++ ((36 :: (natDecimal bytes.length ++ [13, 10] ++ bytes ++ [13, 10])) ++ post)
        = pre ++ (36 :: (natDecimal bytes.length ++ (13 :: 10 :: (bytes ++ (13 :: 10 :: post))))) := by
      simp
    rw [hbuf]
    have hg := getU8_eval pre 36
      (natDecimal bytes.length ++ (13 :: 10 :: (bytes ++ (13 :: 10 :: post))))
    have hpk : peekU8 (pre ++ (36 :: (natDecimal bytes.length ++
        (13 :: 10 :: (bytes ++ (13 :: 10 :: post)))))) (pre.length + 1) = .ok d0 := by
      have hb2 : pre ++ (36 :: (natDecimal bytes.length ++
            (13 :: 10 :: (bytes ++ (13 :: 10 :: post)))))
          = (pre ++ [36]) ++ (d0 :: (dtail ++ (13 :: 10 :: (bytes ++ (13 :: 10 :: post))))) := by
        rw [hD]
        simp
      have hp2 : pre.length + 1 = (pre ++ [36]).length := by simp
      rw [hb2, hp2]
      exact peekU8_eval (pre ++ [36]) d0 _
    have hnot45 : ¬(d0 = 45) := by omega
    have hl : getDecimal (pre ++ (36 :: (natDecimal bytes.length ++
        (13 :: 10 :: (bytes ++ (13 :: 10 :: post)))))) (pre.length + 1)
        = .ok (bytes.length, pre.length + 1 + (natDecimal bytes.length).length + 2) := by
      have hb2 : pre ++ (36 :: (natDecimal bytes.length ++
            (13 :: 10 :: (bytes ++ (13 :: 10 :: post)))))
          = (pre ++ [36]) ++ (natDecimal bytes.length ++
            (13 :: 10 :: (bytes ++ (13 :: 10 :: post)))) := by simp
      have hp2 : pre.length + 1 = (pre ++ [36]).length := by simp
      rw [hb2, hp2]
      exact getDecimal_eval (pre ++ [36]) (bytes ++ (13 :: 10 :: post)) bytes.length
    have hdrop : (pre ++ (36 :: (natDecimal bytes.length ++
          (13 :: 10 :: (bytes ++ (13 :: 10 :: post)))))).drop
          (pre.length + 1 + (natDecimal bytes.length).length + 2)
        = bytes ++ (13 :: 10 :: post) := by
      have hb3 : pre ++ (36 :: (natDecimal bytes.length ++
            (13 :: 10 :: (bytes ++ (13 :: 10 :: post)))))
          = (pre ++ 36 :: (natDecimal bytes.length ++ [13, 10])) ++
            (bytes ++ (13 :: 10 :: post)) := by simp
      have hp3 : pre.length + 1 + (natDecimal bytes.length).length + 2
          = (pre ++ 36 :: (natDecimal bytes.length ++ [13, 10])).length := by
        simp
        omega
      rw [hb3, hp3]
      exact List.drop_left _ _
    have hcond : bytes.length + 2 ≤ (bytes ++ (13 :: 10 :: post)).length := by
      simp
    have htake : (bytes ++ (13 :: 10 :: post)).take bytes.length = bytes :=
      List.take_left _ _
    have harith : pre.length + 1 + (natDecimal bytes.length).length + 2 + (bytes.length + 2)
        = pre.length +
          (36 :: (natDecimal bytes.length ++ [13, 10] ++ bytes ++ [13, 10])).length := by
      simp
      omega
    simp only [parseMany, hg, hpk, hnot45, hl, hdrop, hcond, htake, harith, if_false]
    cases parseMany fuel count (pre ++ (36 :: (natDecimal bytes.length ++
        (13 :: 10 :: (bytes ++ (13 :: 10 :: post))))))
        (pre.length + (36 :: (natDecimal bytes.length ++ [13, 10] ++ bytes ++ [13, 10])).length)
      <;> simp [Except.map]
  | array items => simp [litOk] at hok

lemma writeValues_of_all {items : List Frame} (h : ∀ f ∈ items, litOk f = true) :
    ∃ body, writeValues items = some body := by
  induction items with
  | nil => exact ⟨[], rfl⟩
  | cons f rest ih =>
    obtain ⟨enc, henc⟩ := writeValue_of_litOk (h f (List.mem_cons_self _ _))
    obtain ⟨body, hbody⟩ := ih (fun g hg => h g (List.mem_cons_of_mem _ hg))
    exact ⟨enc ++ body, by simp [writeValues, henc, hbody]⟩

lemma writeValues_length :
    ∀ (items : List Frame) (body : List Nat), writeValues items = some body →
      items.length ≤ body.length := by
  intro items
  induction items with
  | nil =>
    intro body h
    simp only [writeValues, Option.some.injEq] at h
    subst h
    simp
  | cons f rest ih =>
    intro body h
    rcases henc : Connection.writeValue f with _ | enc
    · simp only [writeValues, henc] at h
      exact Option.noConfusion h
    rcases hwr : writeValues rest with _ | brest
    · simp only [writeValues, henc, hwr] at h
      exact Option.noConfusion h
    simp only [writeValues, henc, hwr, Option.some.injEq] at h
    subst h
    have h1 := writeValue_length henc
    have h2 := ih brest hwr
    simp only [List.length_cons, List.length_append]
    omega

/-- Parsing a run of literal frames from the concatenation of their
encodings (the element loop of the array branch). -/
lemma parse_step_list :
    ∀ (items : List Frame) (body : List Nat), (∀ f ∈ items, litOk f = true) →
      writeValues items = some body →
      ∀ (fuel : Nat) (pre post : List Nat), items.length ≤ fuel →
        parseMany (fuel + 1) items.length (pre ++ (body ++ post)) pre.length =
          .ok (items, pre.length + body.length) := by
  intro items
  induction items with
  | nil =>
    intro body _ hw fuel pre post _
    simp only [writeValues, Option.some.injEq] at hw
    subst hw
    simp [parseMany]
  | cons f rest ih =>
    intro body hok hw fuel pre post hf
    rcases henc : Connection.writeValue f with _ | enc
    · simp only [writeValues, henc] at hw
      exact Option.noConfusion hw
    rcases hwr : writeValues rest with _ | brest
    · simp only [writeValues, henc, hwr] at hw
      exact Option.noConfusion hw
    simp only [writeValues, henc, hwr, Option.some.injEq] at hw
    subst hw
    simp only [List.length_cons] at hf ⊢
    obtain ⟨f2, rfl⟩ : ∃ f2, fuel = f2 + 1 := ⟨fuel - 1, by omega⟩
    have hb : pre ++ ((enc ++ brest) ++ post) = pre ++ (enc ++ (brest ++ post)) := by simp
    rw [hb]
    rw [parse_step_lit f enc (hok f (List.mem_cons_self _ _)) henc (f2 + 1) rest.length pre
      (brest ++ post)]
    have hih := ih brest (fun g hg => hok g (List.mem_cons_of_mem _ hg)) hwr f2
      (pre ++ enc) post (by omega)
    have hb2 : (pre ++ enc) ++ (brest ++ post) = pre ++ (enc ++ (brest ++ post)) := by simp
    have hp2 : (pre ++ enc).length = pre.length + enc.length := by simp
    rw [hb2, hp2] at hih
    rw [hih]
    simp only [Except.map, List.length_append]
    rw [Nat.add_assoc]

/-- C1 counterexample: the frame writer cannot emit a nested array — the
`Frame::Array` arm of `Connection::write_value` is `unreachable!()`
(`src/connection.rs` line 223), so encoding `Array [Array []]` produces no
bytes (the task panics) and the round trip fails for it. -/
theorem nested_array_write_panics :
    Connection.writeFrame (Frame.array [Frame.array []]) = none := rfl

/-- C1 amended: for every well-formed frame — a literal or an array of
literals, with Simple/Error text free of CR LF (and valid UTF-8, as Rust
`String`s are) and integers within `u64` — encoding with the connection's
frame writer succeeds and parsing the produced bytes returns the same frame,
consuming exactly the produced bytes.  Frames with nested arrays are
excluded: the writer panics on them. -/
theorem frame_write_parse_roundtrip :
    ∀ f : Frame, wfFrame f = true →
      ∃ bs, Connection.writeFrame f = some bs ∧ Frame.parse bs = .ok (f, bs.length) := by
  intro f hwf
  cases f with
  | array items =>
    simp only [wfFrame, List.all_eq_true] at hwf
    obtain ⟨body, hw⟩ := writeValues_of_all hwf
    refine ⟨42 :: (natDecimal items.length ++ [13, 10] ++ body), ?_, ?_⟩
    · simp [Connection.writeFrame, hw]
    · have hlen : (42 :: (natDecimal items.length ++ [13, 10] ++ body)).length
          = 1 + (natDecimal items.length).length + 2 + body.length := by
        simp
        omega
      have hLb := writeValues_length items body hw
      have hdp := natDecimal_length_pos items.length
      set bs := 42 :: (natDecimal items.length ++ [13, 10] ++ body) with hbs
      have hg : getU8 bs 0 = .ok (42, 1) := rfl
      have hl : getDecimal bs 1
          = .ok (items.length, 1 + (natDecimal items.length).length + 2) := by
        have hb2 : bs = [42] ++ (natDecimal items.length ++ (13 :: 10 :: body)) := by
          rw [hbs]
          simp
        have hp2 : (1 : Nat) = ([42] : List Nat).length := rfl
        rw [hb2]
        have := getDecimal_eval [42] body items.length
        simpa using this
      have hinner : parseMany bs.length items.length bs
          (1 + (natDecimal items.length).length + 2) = .ok (items, bs.length) := by
        obtain ⟨f2, hf2⟩ : ∃ f2, bs.length = f2 + 1 := ⟨bs.length - 1, by
          rw [hlen]; omega⟩
        have hb3 : bs = (42 :: (natDecimal items.length ++ [13, 10])) ++ (body ++ []) := by
          rw [hbs]
          simp
        have hp3 : 1 + (natDecimal items.length).length + 2
            = (42 :: (natDecimal items.length ++ [13, 10])).length := by
          simp
          omega
        have hfl : items.length ≤ f2 := by
          rw [hlen] at hf2
          omega
        have := parse_step_list items body hwf hw f2
          (42 :: (natDecimal items.length ++ [13, 10])) [] hfl
        rw [← hb3, ← hp3] at this
        conv_lhs => rw [hf2]
        rw [this, hlen]
      have hcont : parseMany bs.length 0 bs bs.length = .ok ([], bs.length) := by
        obtain ⟨f2, hf2⟩ : ∃ f2, bs.length = f2 + 1 := ⟨bs.length - 1, by
          rw [hlen]; omega⟩
        rw [hf2]
        rfl
      have hmain : parseMany (bs.length + 1) 1 bs 0 = .ok ([Frame.array items], bs.length) := by
        simp [parseMany, hg, hl, hinner, hcont]
      simp only [Frame.parse, hmain]
  | simple s =>
    obtain ⟨enc, henc⟩ := writeValue_of_litOk (show litOk (Frame.simple s) = true from hwf)
    refine ⟨enc, henc, ?_⟩
    have h3 := writeValue_length henc
    have hstep := parse_step_lit (Frame.simple s) enc hwf henc enc.length 0 [] []
    simp only [List.nil_append, List.append_nil, List.length_nil, Nat.zero_add] at hstep
    obtain ⟨m, hm⟩ : ∃ m, enc.length = m + 1 := ⟨enc.length - 1, by omega⟩
    have hz : parseMany enc.length 0 enc enc.length = .ok ([], enc.length) := by
      rw [hm]; rfl
    rw [hz] at hstep
    simp only [Frame.parse, hstep, Except.map]
  | error s =>
    obtain ⟨enc, henc⟩ := writeValue_of_litOk (show litOk (Frame.error s) = true from hwf)
    refine ⟨enc, henc, ?_⟩
    have h3 := writeValue_length henc
    have hstep := parse_step_lit (Frame.error s) enc hwf henc enc.length 0 [] []
    simp only [List.nil_append, List.append_nil, List.length_nil, Nat.zero_add] at hstep
    obtain ⟨m, hm⟩ : ∃ m, enc.length = m + 1 := ⟨enc.length - 1, by omega⟩
    have hz : parseMany enc.length 0 enc enc.length = .ok ([], enc.length) := by
      rw [hm]; rfl
    rw [hz] at hstep
    simp only [Frame.parse, hstep, Except.map]
  | integer n =>
    obtain ⟨enc, henc⟩ := writeValue_of_litOk (show litOk (Frame.integer n) = true from hwf)
    refine ⟨enc, henc, ?_⟩
    have h3 := writeValue_length henc
    have hstep := parse_step_lit (Frame.integer n) enc hwf henc enc.length 0 [] []
    simp only [List.nil_append, List.append_nil, List.length_nil, Nat.zero_add] at hstep
    obtain ⟨m, hm⟩ : ∃ m, enc.length = m + 1 := ⟨enc.length - 1, by omega⟩
    have hz : parseMany enc.length 0 enc enc.length = .ok ([], enc.length) := by
      rw [hm]; rfl
    rw [hz] at hstep
    simp only [Frame.parse, hstep, Except.map]
  | bulk b =>
    obtain ⟨enc, henc⟩ := writeValue_of_litOk (show litOk (Frame.bulk b) = true from hwf)
    refine ⟨enc, henc, ?_⟩
    have h3 := writeValue_length henc
    have hstep := parse_step_lit (Frame.bulk b) enc hwf henc enc.length 0 [] []
    simp only [List.nil_append, List.append_nil, List.length_nil, Nat.zero_add] at hstep
    obtain ⟨m, hm⟩ : ∃ m, enc.length = m + 1 := ⟨enc.length - 1, by omega⟩
    have hz : parseMany enc.length 0 enc enc.length = .ok ([], enc.length) := by
      rw [hm]; rfl
    rw [hz] at hstep
    simp only [Frame.parse, hstep, Except.map]
  | null =>
    obtain ⟨enc, henc⟩ := writeValue_of_litOk (show litOk Frame.null = true from hwf)
    refine ⟨enc, henc, ?_⟩
    have h3 := writeValue_length henc
    have hstep := parse_step_lit Frame.null enc hwf henc enc.length 0 [] []
    simp only [List.nil_append, List.append_nil, List.length_nil, Nat.zero_add] at hstep
    obtain ⟨m, hm⟩ : ∃ m, enc.length = m + 1 := ⟨enc.length - 1, by omega⟩
    have hz : parseMany enc.length 0 enc enc.length = .ok ([], enc.length) := by
      rw [hm]; rfl
    rw [hz] at hstep
    simp only [Frame.parse, hstep, Except.map]

/-- Witness for C1's amended round trip at a concrete array frame with a
bulk, an integer and a null element. -/
theorem frame_write_parse_roundtrip_witness :
    wfFrame (Frame.array [Frame.bulk [104, 105], Frame.integer 7, Frame.null]) = true ∧
    ∃ bs, Connection.writeFrame
        (Frame.array [Frame.bulk [104, 105], Frame.integer 7, Frame.null]) = some bs ∧
      Frame.parse bs =
        .ok (Frame.array [Frame.bulk [104, 105], Frame.integer 7, Frame.null], bs.length) :=
  ⟨by decide, frame_write_parse_roundtrip _ (by decide)⟩

/-! ## Two-phase parsing: `check` against `parse` (C7) -/

lemma getLine_error_incomplete {buf : List Nat} {pos : Nat} {e : PErr}
    (h : getLine buf pos = .error e) : e = PErr.incomplete := by
  unfold getLine at h
  rcases hs : splitLine (buf.drop pos) with _ | ⟨line, rest⟩
  · simp only [hs] at h
    cases h
    rfl
  · simp only [hs] at h
    cases h

lemma getLine_ok_pos {buf : List Nat} {pos : Nat} {line : List Nat} {p2 : Nat}
    (h : getLine buf pos = .ok (line, p2)) : p2 = pos + line.length + 2 := by
  unfold getLine at h
  rcases hs : splitLine (buf.drop pos) with _ | ⟨l2, rest⟩
  · simp only [hs] at h
    cases h
  · simp only [hs, Except.ok.injEq, Prod.mk.injEq] at h
    rw [← h.1]
    exact h.2.symm

lemma skip_ok_iff {buf : List Nat} {pos n m : Nat} :
    skip buf pos n = .ok m ↔ n ≤ (buf.drop pos).length ∧ m = pos + n := by
  unfold skip
  by_cases h : n ≤ (buf.drop pos).length
  · simp only [if_pos h, Except.ok.injEq]
    constructor
    · intro hh
      exact ⟨h, hh.symm⟩
    · intro hh
      exact hh.2.symm
  · simp only [if_neg h]
    constructor
    · intro hh
      cases hh
    · intro hh
      exact absurd hh.1 h

lemma getDecimal_error_ne_unimpl {buf : List Nat} {pos : Nat} {e : PErr}
    (h : getDecimal buf pos = .error e) : e ≠ PErr.unimpl := by
  unfold getDecimal at h
  rcases hl : getLine buf pos with e2 | ⟨line, p2⟩
  · simp only [hl] at h
    cases h
    rw [getLine_error_incomplete hl]
    simp
  · simp only [hl] at h
    rcases ha : atoi line with _ | k
    · simp only [ha] at h
      cases h
      simp
    · simp only [ha] at h
      cases h

/-- Whenever `Frame::check` accepts a prefix (any count of frames) ending at
cursor `n`, `Frame::parse` from the same position either succeeds with
exactly that final cursor and as many frames, or fails with an error other
than the `unimplemented!()` branch. -/
lemma checkMany_ok_parseMany :
    ∀ fuel count buf pos n, checkMany fuel count buf pos = .ok n →
      (∃ fs, parseMany fuel count buf pos = .ok (fs, n) ∧ fs.length = count) ∨
      (∃ e, parseMany fuel count buf pos = .error e ∧ e ≠ PErr.unimpl) := by
  intro fuel
  induction fuel with
  | zero =>
    intro count buf pos n hc
    simp only [checkMany] at hc
    cases hc
  | succ fuel ih =>
    intro count buf pos n hc
    cases count with
    | zero =>
      simp only [checkMany, Except.ok.injEq] at hc
      subst hc
      exact Or.inl ⟨[], by simp [parseMany], rfl⟩
    | succ count =>
      rcases hu : getU8 buf pos with e | ⟨b, pos1⟩
      · simp only [checkMany, hu] at hc
        cases hc
      · simp only [checkMany, hu] at hc
        by_cases h43 : b = 43
        · rw [if_pos h43] at hc
          rcases hl : getLine buf pos1 with e | ⟨line, pos2⟩
          · simp only [hl] at hc
            cases hc
          · simp only [hl] at hc
            by_cases hv : validUtf8 line
            · rcases ih count buf pos2 n hc with ⟨fs, hp, hfl⟩ | ⟨e, hp, hne⟩
              · exact Or.inl ⟨.simple line :: fs,
                  by simp [parseMany, hu, h43, hl, hv, hp], by simp [hfl]⟩
              · exact Or.inr ⟨e, by simp [parseMany, hu, h43, hl, hv, hp], hne⟩
            · refine Or.inr ⟨.other "protocol error; invalid frame format",
                by simp [parseMany, hu, h43, hl, hv], by simp⟩
        · by_cases h45 : b = 45
          · rw [if_neg h43, if_pos h45] at hc
            rcases hl : getLine buf pos1 with e | ⟨line, pos2⟩
            · simp only [hl] at hc
              cases hc
            · simp only [hl] at hc
              by_cases hv : validUtf8 line
              · rcases ih count buf pos2 n hc with ⟨fs, hp, hfl⟩ | ⟨e, hp, hne⟩
                · exact Or.inl ⟨.error line :: fs,
                    by simp [parseMany, hu, h43, h45, hl, hv, hp], by simp [hfl]⟩
                · exact Or.inr ⟨e, by simp [parseMany, hu, h43, h45, hl, hv, hp], hne⟩
              · refine Or.inr ⟨.other "protocol error; invalid frame format",
                  by simp [parseMany, hu, h43, h45, hl, hv], by simp⟩
          · by_cases h58 : b = 58
            · rw [if_neg h43, if_neg h45, if_pos h58] at hc
              rcases hd : getDecimal buf pos1 with e | ⟨k, pos2⟩
              · simp only [hd] at hc
                cases hc
              · simp only [hd] at hc
                rcases ih count buf pos2 n hc with ⟨fs, hp, hfl⟩ | ⟨e, hp, hne⟩
                · exact Or.inl ⟨.integer k :: fs,
                    by simp [parseMany, hu, h43, h45, h58, hd, hp], by simp [hfl]⟩
                · exact Or.inr ⟨e, by simp [parseMany, hu, h43, h45, h58, hd, hp], hne⟩
            · by_cases h36 : b = 36
              · rw [if_neg h43, if_neg h45, if_neg h58, if_pos h36] at hc
                rcases hpk : peekU8 buf pos1 with e | p
                · simp only [hpk] at hc
                  cases hc
                · simp only [hpk] at hc
                  by_cases hp45 : p = 45
                  · rw [if_pos hp45] at hc
                    rcases hs : skip buf pos1 4 with e | pos2
                    · simp only [hs] at hc
                      cases hc
                    · simp only [hs] at hc
                      obtain ⟨hrem, hpos2⟩ := skip_ok_iff.mp hs
                      rcases hl : getLine buf pos1 with e | ⟨line, pos2'⟩
                      · refine Or.inr ⟨e,
                          by simp [parseMany, hu, h43, h45, h58, h36, hpk, hp45, hl], ?_⟩
                        rw [getLine_error_incomplete hl]
                        simp
                      · by_cases hline : line = [45, 49]
                        · have hpos2' : pos2' = pos2 := by
                            have := getLine_ok_pos hl
                            rw [this, hline, hpos2]
                            rfl
                          rw [hpos2'] at hl
                          rcases ih count buf pos2 n hc with ⟨fs, hp, hfl⟩ | ⟨e, hp, hne⟩
                          · exact Or.inl ⟨.null :: fs,
                              by simp [parseMany, hu, h43, h45, h58, h36, hpk, hp45, hl,
                                hline, hp], by simp [hfl]⟩
                          · exact Or.inr ⟨e,
                              by simp [parseMany, hu, h43, h45, h58, h36, hpk, hp45, hl,
                                hline, hp], hne⟩
                        · refine Or.inr ⟨.other "protocol error; invalid frame format",
                            by simp [parseMany, hu, h43, h45, h58, h36, hpk, hp45, hl,
                              hline], by simp⟩
                  · rw [if_neg hp45] at hc
                    rcases hd : getDecimal buf pos1 with e | ⟨len, pos2⟩
                    · simp only [hd] at hc
                      cases hc
                    · simp only [hd] at hc
                      rcases hs : skip buf pos2 (len + 2) with e | pos3
                      · simp only [hs] at hc
                        cases hc
                      · simp only [hs] at hc
                        obtain ⟨hrem, hpos3⟩ := skip_ok_iff.mp hs
                        rcases ih count buf pos3 n hc with ⟨fs, hp, hfl⟩ | ⟨e, hp, hne⟩
                        · refine Or.inl ⟨.bulk ((buf.drop pos2).take len) :: fs, ?_, by simp [hfl]⟩
                          rw [hpos3] at hp
                          have hrem2 : len + 2 ≤ buf.length - pos2 := by simpa using hrem
                          simp [parseMany, hu, h43, h45, h58, h36, hpk, hp45, hd, hrem,
                            hrem2, hp]
                        · refine Or.inr ⟨e, ?_, hne⟩
                          rw [hpos3] at hp
                          have hrem2 : len + 2 ≤ buf.length - pos2 := by simpa using hrem
                          simp [parseMany, hu, h43, h45, h58, h36, hpk, hp45, hd, hrem,
                            hrem2, hp]
              · by_cases h42 : b = 42
                · rw [if_neg h43, if_neg h45, if_neg h58, if_neg h36, if_pos h42] at hc
                  rcases hd : getDecimal buf pos1 with e | ⟨len, pos2⟩
                  · simp only [hd] at hc
                    cases hc
                  · simp only [hd] at hc
                    rcases hcin : checkMany fuel len buf pos2 with e | pos3
                    · simp only [hcin] at hc
                      cases hc
                    · simp only [hcin] at hc
                      rcases ih len buf pos2 pos3 hcin with ⟨items, hpin, _⟩ | ⟨e, hpin, hne⟩
                      · rcases ih count buf pos3 n hc with ⟨fs, hp, hfl⟩ | ⟨e, hp, hne⟩
                        · exact Or.inl ⟨.array items :: fs,
                            by simp [parseMany, hu, h43, h45, h58, h36, h42, hd, hpin, hp],
                            by simp [hfl]⟩
                        · exact Or.inr ⟨e,
                            by simp [parseMany, hu, h43, h45, h58, h36, h42, hd, hpin, hp],
                            hne⟩
                      · exact Or.inr ⟨e,
                          by simp [parseMany, hu, h43, h45, h58, h36, h42, hd, hpin], hne⟩
                · rw [if_neg h43, if_neg h45, if_neg h58, if_neg h36, if_neg h42] at hc
                  cases hc

/-- C7 counterexample: the four-byte buffer `+ 0xFF CR LF` passes
`Frame::check` (the `+` arm only scans for the line end) with final cursor
4, but `Frame::parse` rejects it: `String::from_utf8` fails on the
non-UTF-8 line, so the two phases do not agree on acceptance. -/
theorem check_accepts_parse_rejects_counterexample :
    Frame.check [43, 255, 13, 10] = .ok 4 ∧
    Frame.parse [43, 255, 13, 10] =
      .error (.other "protocol error; invalid frame format") :=
  ⟨rfl, rfl⟩

/-- C7 amended: on every buffer accepted by `Frame::check` with final cursor
`n`, `Frame::parse` from position 0 either succeeds with final cursor
exactly `n` (the two phases agree on the consumed frame length) or fails
with an `Incomplete`/protocol error — it never reaches the
`unimplemented!()` panic branch.  The converse inclusion fails: `check`
accepts buffers `parse` rejects (non-UTF-8 Simple/Error lines, and `$-`
sequences other than `$-1 CR LF`). -/
theorem check_ok_parse_agrees_or_fails_cleanly :
    ∀ buf n, Frame.check buf = .ok n →
      (∃ f, Frame.parse buf = .ok (f, n)) ∨
      (∃ e, Frame.parse buf = .error e ∧ e ≠ PErr.unimpl) := by
  intro buf n hc
  unfold Frame.check at hc
  rcases checkMany_ok_parseMany (buf.length + 1) 1 buf 0 n hc with
    ⟨fs, hp, hfl⟩ | ⟨e, hp, hne⟩
  · cases fs with
    | nil => simp at hfl
    | cons f rest =>
      exact Or.inl ⟨f, by simp [Frame.parse, hp]⟩
  · exact Or.inr ⟨e, by simp [Frame.parse, hp], hne⟩

/-- Witness for C7's amended theorem on the buffer `+OK CR LF`, accepted by
`check` at cursor 5. -/
theorem check_ok_parse_agrees_or_fails_cleanly_witness :
    (∃ f, Frame.parse [43, 79, 75, 13, 10] = .ok (f, 5)) ∨
    (∃ e, Frame.parse [43, 79, 75, 13, 10] = .error e ∧ e ≠ PErr.unimpl) :=
  check_ok_parse_agrees_or_fails_cleanly [43, 79, 75, 13, 10] 5 rfl

end MiniRedis
